import Mathlib

/-!
Shallow embedding of `src/nlp-service/services/timeline_extractor.py`
(class `TimelineExtractor`).

Modelling conventions:
* Python `str` values flowing through the pipeline are `List Char`
  (Python indexes strings by code point, as does `List Char`).
* Python floats (the confidence arithmetic on 0.3/0.2/0.1 literals) are
  modelled as exact rationals `ℚ`.
* A Python dict that either is `{}` or carries a fixed set of keys is an
  `Option` of a structure; optional keys are `Option` fields.
* `re.finditer` is modelled per pattern by a hand-compiled matcher with
  the regex's leftmost-first alternation and greedy (backtracking)
  quantifier semantics; `\d` is modelled as the ASCII digits (none of the
  texts or properties below involve non-ASCII digits).
* Python's stable `sorted(key=...)` is modelled by a stable insertion
  sort (`insertionSortB`); two stable sorts under the same total
  preorder agree elementwise.
-/

namespace MH

/-- Stable insertion into a Bool-sorted list: `a` is placed before the first
element `b` with `le a b`, matching the placement of Python's stable sort. -/
def orderedInsertB (le : α → α → Bool) (a : α) : List α → List α
  | [] => [a]
  | b :: l => if le a b then a :: b :: l else b :: orderedInsertB le a l

/-- Stable insertion sort, the model of Python's `sorted`/`list.sort`. -/
def insertionSortB (le : α → α → Bool) : List α → List α
  | [] => []
  | a :: l => orderedInsertB le a (insertionSortB le l)

theorem mem_orderedInsertB {le : α → α → Bool} {x a : α} {l : List α} :
    x ∈ orderedInsertB le a l ↔ x = a ∨ x ∈ l := by
  induction l with
  | nil => simp [orderedInsertB]
  | cons b l ih =>
    by_cases h : le a b = true
    · simp [orderedInsertB, h]
    · simp only [orderedInsertB, if_neg h, List.mem_cons, ih]
      tauto

theorem mem_insertionSortB {le : α → α → Bool} {x : α} {l : List α} :
    x ∈ insertionSortB le l ↔ x ∈ l := by
  induction l with
  | nil => simp [insertionSortB]
  | cons a l ih => simp [insertionSortB, mem_orderedInsertB, ih]

theorem length_orderedInsertB {le : α → α → Bool} (a : α) (l : List α) :
    (orderedInsertB le a l).length = l.length + 1 := by
  induction l with
  | nil => rfl
  | cons b l ih =>
    by_cases h : le a b = true
    · simp [orderedInsertB, h]
    · simp [orderedInsertB, h, ih]

theorem length_insertionSortB {le : α → α → Bool} (l : List α) :
    (insertionSortB le l).length = l.length := by
  induction l with
  | nil => rfl
  | cons a l ih => simp [insertionSortB, length_orderedInsertB, ih]

theorem pairwise_orderedInsertB {le : α → α → Bool}
    (htot : ∀ a b, le a b = false → le b a = true)
    (htrans : ∀ a b c, le a b = true → le b c = true → le a c = true)
    {a : α} {l : List α}
    (h : l.Pairwise (fun x y => le x y = true)) :
    (orderedInsertB le a l).Pairwise (fun x y => le x y = true) := by
  induction l with
  | nil => simp [orderedInsertB]
  | cons b l ih =>
    rcases List.pairwise_cons.mp h with ⟨hb, hl⟩
    by_cases hab : le a b = true
    · rw [orderedInsertB, if_pos hab]
      refine List.pairwise_cons.mpr ⟨?_, h⟩
      intro x hx
      rcases List.mem_cons.mp hx with rfl | hx
      · exact hab
      · exact htrans a b x hab (hb x hx)
    · rw [orderedInsertB, if_neg hab]
      refine List.pairwise_cons.mpr ⟨?_, ih hl⟩
      intro x hx
      rcases mem_orderedInsertB.mp hx with hxa | hx
      · rw [hxa]; exact htot a b (by simpa using hab)
      · exact hb x hx

theorem pairwise_insertionSortB {le : α → α → Bool}
    (htot : ∀ a b, le a b = false → le b a = true)
    (htrans : ∀ a b c, le a b = true → le b c = true → le a c = true)
    (l : List α) :
    (insertionSortB le l).Pairwise (fun x y => le x y = true) := by
  induction l with
  | nil => simp [insertionSortB]
  | cons a l ih => exact pairwise_orderedInsertB htot htrans ih

/-! ### Pattern matchers (`_init_time_patterns`)

Each matcher takes the text suffix starting at the current scan position
and returns `some (consumedLength, capturedGroups)` on a match. -/

/-- Leftmost-first alternation over literal alternatives: the model of a
regex group `(lit1|lit2|...)`. -/
def litAlts (alts : List (List Char)) (s : List Char) : Option (List Char) :=
  alts.find? (fun a => a.isPrefixOf s)

/-- Length consumed by an optional literal `(?:lit)?` (greedy). -/
def optLit (lit : List Char) (s : List Char) : Nat :=
  if lit.isPrefixOf s then lit.length else 0

/-- Length consumed by an optional alternation `(?:lit1|lit2|...)?` (greedy,
leftmost-first). -/
def optAlts (alts : List (List Char)) (s : List Char) : Nat :=
  match litAlts alts s with
  | some a => a.length
  | none => 0

/-- Greedy `\d{1,hi}` followed by a required literal, with backtracking over
the digit count (longest first), as the regex engine does. Returns the
captured digits and the total length consumed. -/
def digitsThen : Nat → List Char → List Char → Option (List Char × Nat)
  | 0, _, _ => none
  | k + 1, lit, s =>
    if ((s.take (k + 1)).length == k + 1 && (s.take (k + 1)).all (fun c => c.isDigit)
        && lit.isPrefixOf (s.drop (k + 1))) then
      some (s.take (k + 1), (k + 1) + lit.length)
    else
      digitsThen k lit s

/-- Matcher for `(\d{1,4})年`. -/
def yearMatchAt (s : List Char) : Option (Nat × List (List Char)) :=
  match digitsThen 4 ['年'] s with
  | some (ds, len) => some (len, [ds])
  | none => none

/-- Matcher for `(春秋|战国|秦|汉|唐|宋|元|明|清)(?:朝)?(?:代)?`. -/
def dynastyMatchAt (s : List Char) : Option (Nat × List (List Char)) :=
  match litAlts [['春', '秋'], ['战', '国'], ['秦'], ['汉'], ['唐'], ['宋'], ['元'], ['明'], ['清']] s with
  | some g =>
    let r1 := s.drop g.length
    let n1 := optLit ['朝'] r1
    let n2 := optLit ['代'] (r1.drop n1)
    some (g.length + n1 + n2, [g])
  | none => none

/-- Matcher for `(康熙|乾隆|雍正|嘉靖|万历|光绪|宣统|贞观|开元|天宝)(?:年间|时期|朝|代)?`. -/
def emperorEraMatchAt (s : List Char) : Option (Nat × List (List Char)) :=
  match litAlts [['康', '熙'], ['乾', '隆'], ['雍', '正'], ['嘉', '靖'], ['万', '历'],
      ['光', '绪'], ['宣', '统'], ['贞', '观'], ['开', '元'], ['天', '宝']] s with
  | some g =>
    let n1 := optAlts [['年', '间'], ['时', '期'], ['朝'], ['代']] (s.drop g.length)
    some (g.length + n1, [g])
  | none => none

/-- Matcher for `(?:第)?(\d{1,2})世纪`. If the optional `第` is consumed the
digits must follow; regex backtracking over `(?:第)?` cannot rescue a failure
because `第` is not a digit. -/
def centuryMatchAt (s : List Char) : Option (Nat × List (List Char)) :=
  if ['第'].isPrefixOf s then
    match digitsThen 2 ['世', '纪'] (s.drop 1) with
    | some (ds, len) => some (1 + len, [ds])
    | none => none
  else
    match digitsThen 2 ['世', '纪'] s with
    | some (ds, len) => some (len, [ds])
    | none => none

/-- Matcher for `(古代|近代|现代|当代|上古|中古|近世)`. -/
def relativePeriodMatchAt (s : List Char) : Option (Nat × List (List Char)) :=
  match litAlts [['古', '代'], ['近', '代'], ['现', '代'], ['当', '代'],
      ['上', '古'], ['中', '古'], ['近', '世']] s with
  | some g => some (g.length, [g])
  | none => none

/-- Auxiliary for the month/day matcher: try `\d{1,k1}月(\d{1,2})日` with
backtracking over the first digit group (longest first). -/
def tryMonthDay : Nat → List Char → Option (Nat × List (List Char))
  | 0, _ => none
  | k + 1, s =>
    if ((s.take (k + 1)).length == k + 1 && (s.take (k + 1)).all (fun c => c.isDigit)
        && ['月'].isPrefixOf (s.drop (k + 1))) then
      match digitsThen 2 ['日'] (s.drop (k + 2)) with
      | some (ds2, len2) => some ((k + 2) + len2, [s.take (k + 1), ds2])
      | none => tryMonthDay k s
    else
      tryMonthDay k s

/-- Matcher for `(\d{1,2})月(\d{1,2})日`. -/
def monthDayMatchAt (s : List Char) : Option (Nat × List (List Char)) :=
  tryMonthDay 2 s

/-- Matcher for `(春|夏|秋|冬)(?:季|天)` (the suffix is required). -/
def seasonMatchAt (s : List Char) : Option (Nat × List (List Char)) :=
  match litAlts [['春'], ['夏'], ['秋'], ['冬']] s with
  | some g =>
    match litAlts [['季'], ['天']] (s.drop 1) with
    | some _ => some (2, [g])
    | none => none
  | none => none

/-- Matcher for `(春秋战国|魏晋南北朝|隋唐|宋元|明清|民国|新中国)(?:时期|时代)?`. -/
def historicalPeriodMatchAt (s : List Char) : Option (Nat × List (List Char)) :=
  match litAlts [['春', '秋', '战', '国'], ['魏', '晋', '南', '北', '朝'], ['隋', '唐'],
      ['宋', '元'], ['明', '清'], ['民', '国'], ['新', '中', '国']] s with
  | some g =>
    let n1 := optAlts [['时', '期'], ['时', '代']] (s.drop g.length)
    some (g.length + n1, [g])
  | none => none

/-- A compiled time-expression pattern: `{'pattern': ..., 'type': ..., 'priority': ...}`. -/
structure TimePattern where
  type : String
  priority : Nat
  matchAt : List Char → Option (Nat × List (List Char))

/-- The pattern catalog, in the declaration order of `_init_time_patterns`. -/
def time_patterns : List TimePattern :=
  [ { type := "year", priority := 1, matchAt := yearMatchAt },
    { type := "dynasty", priority := 2, matchAt := dynastyMatchAt },
    { type := "emperor_era", priority := 2, matchAt := emperorEraMatchAt },
    { type := "century", priority := 2, matchAt := centuryMatchAt },
    { type := "relative_period", priority := 3, matchAt := relativePeriodMatchAt },
    { type := "month_day", priority := 1, matchAt := monthDayMatchAt },
    { type := "season", priority := 3, matchAt := seasonMatchAt },
    { type := "historical_period", priority := 2, matchAt := historicalPeriodMatchAt } ]

/-- One raw regex match: start offset, end offset, captured groups. -/
structure RawMatch where
  start : Nat
  endPos : Nat
  groups : List (List Char)
deriving Repr, DecidableEq

/-- Model of `re.finditer`: scan left to right; after a match resume at its
end (matches of one pattern never overlap); otherwise advance one position.
`fuel` bounds the recursion (`text.length + 1` suffices because every
matcher consumes at least one character). -/
def finditerAux (m : List Char → Option (Nat × List (List Char))) (s : List Char) :
    Nat → Nat → List RawMatch
  | 0, _ => []
  | fuel + 1, pos =>
    if pos < s.length then
      match m (s.drop pos) with
      | some (len, gs) => ⟨pos, pos + len, gs⟩ :: finditerAux m s fuel (pos + len)
      | none => finditerAux m s fuel (pos + 1)
    else []

/-- All matches of one matcher over the text, as `re.finditer` yields them. -/
def finditer (m : List Char → Option (Nat × List (List Char))) (s : List Char) :
    List RawMatch :=
  finditerAux m s (s.length + 1) 0

/-! ### Static tables (`_init_dynasty_periods`, `_init_event_keywords`) -/

/-- The dynasty/period table: name, start year, end year, description
(`_init_dynasty_periods`, in declaration order). -/
def dynasty_periods : List (String × Int × Int × String) :=
  [ ("夏朝", -2070, -1600, "中国第一个世袭制王朝"),
    ("商朝", -1600, -1046, "青铜文明鼎盛时期"),
    ("周朝", -1046, -256, "中国历史上最长的朝代"),
    ("春秋", -770, -476, "春秋时期"),
    ("战国", -475, -221, "战国时期"),
    ("秦朝", -221, -206, "中国第一个统一的封建王朝"),
    ("汉朝", -206, 220, "西汉和东汉"),
    ("三国", 220, 280, "魏蜀吴三国鼎立"),
    ("晋朝", 265, 420, "西晋和东晋"),
    ("南北朝", 420, 589, "南北朝对峙时期"),
    ("隋朝", 581, 618, "短暂的统一王朝"),
    ("唐朝", 618, 907, "盛唐时期"),
    ("宋朝", 960, 1279, "北宋和南宋"),
    ("元朝", 1271, 1368, "蒙古族建立的王朝"),
    ("明朝", 1368, 1644, "汉族复兴的王朝"),
    ("清朝", 1644, 1912, "中国最后一个封建王朝"),
    ("民国", 1912, 1949, "中华民国时期"),
    ("新中国", 1949, 2024, "中华人民共和国") ]

/-- Dictionary lookup `self.dynasty_periods[name]` (with the `in` test). -/
def lookupDynasty (name : String) : Option (Int × Int × String) :=
  (dynasty_periods.find? (fun p => p.1 == name)).map (fun p => p.2)

/-- The event keyword index (`_init_event_keywords`, in declaration order). -/
def event_keywords : List (String × List String) :=
  [ ("战争",
     ["战争", "战役", "战斗", "征战", "攻打", "围攻", "进攻", "防守", "抵抗",
      "起义", "叛乱", "革命", "政变", "兵变", "民变", "农民起义"]),
    ("政治",
     ["建立", "统一", "分裂", "灭亡", "覆灭", "建国", "立国", "称帝", "登基",
      "退位", "禅让", "篡位", "政变", "改革", "变法", "新政", "政策"]),
    ("文化",
     ["发明", "创造", "著作", "编写", "撰写", "创作", "发现", "开创",
      "传播", "兴起", "发展", "繁荣", "衰落", "复兴", "改进", "完善"]),
    ("经济",
     ["贸易", "商业", "农业", "手工业", "货币", "税收", "赋税", "经济",
      "繁荣", "发展", "衰退", "改革", "开放", "封闭", "垄断", "自由"]),
    ("社会",
     ["迁移", "迁都", "人口", "民族", "宗教", "信仰", "习俗", "制度",
      "等级", "阶层", "社会", "民生", "生活", "教育", "科举", "学校"]),
    ("自然",
     ["地震", "洪水", "干旱", "饥荒", "瘟疫", "灾害", "天灾", "自然",
      "气候", "环境", "生态", "资源", "开发", "保护", "破坏", "恢复"]) ]

/-- The time modifier list (`_init_time_modifiers`); built at construction
but never consulted by the rest of the class. -/
def time_modifiers : List String :=
  ["初", "中", "末", "早", "晚", "前", "后", "上", "下",
   "初期", "中期", "末期", "早期", "晚期", "前期", "后期",
   "开始", "结束", "期间", "时期", "时代", "年间", "左右",
   "大约", "约", "近", "将近", "不到", "超过", "以上", "以下"]

/-! ### TimeExpression and parsing -/

/-- A time-expression record. Keys that `_parse_time_expression` may or may
not add are `Option` fields (absent key = `none`). -/
structure TimeExpression where
  text : List Char
  type : String
  start : Nat
  endPos : Nat
  groups : List (List Char)
  priority : Nat
  year : Option Int := none
  normalized_year : Option Int := none
  dynasty : Option String := none
  start_year : Option Int := none
  end_year : Option Int := none
  description : Option String := none
  century : Option Int := none
  month : Option Int := none
  day : Option Int := none
  period : Option String := none
  precision : Option String := none
deriving Repr, DecidableEq

/-- The fields `_parse_time_expression` can produce (its `parsed` dict). -/
structure ParsedTime where
  year : Option Int := none
  normalized_year : Option Int := none
  dynasty : Option String := none
  start_year : Option Int := none
  end_year : Option Int := none
  description : Option String := none
  century : Option Int := none
  month : Option Int := none
  day : Option Int := none
  period : Option String := none
  precision : Option String := none
deriving Repr, DecidableEq

/-- Python truthiness of the `parsed` dict: `if parsed_time:` is false
exactly when no key was added. -/
def ParsedTime.nonempty (p : ParsedTime) : Bool :=
  p.year.isSome || p.normalized_year.isSome || p.dynasty.isSome ||
  p.start_year.isSome || p.end_year.isSome || p.description.isSome ||
  p.century.isSome || p.month.isSome || p.day.isSome || p.period.isSome ||
  p.precision.isSome

/-- `int(...)` on a captured `\d+` group (always succeeds on digits, so the
`except ValueError` branch of `_parse_time_expression` is unreachable). -/
def parseDigits (ds : List Char) : Int :=
  (ds.foldl (fun acc c => acc * 10 + (c.toNat - '0'.toNat)) 0 : Nat)

/-- Model of `TimelineExtractor._parse_time_expression`. The source returns
`parsed` (possibly the empty dict) from the `try` block; `None` from the
`except` block is unreachable because every captured group the branches
convert with `int()` is a `\d{...}` match and each branch reads only groups
its own pattern provides. -/
def parse_time_expression (e : TimeExpression) : ParsedTime :=
  if e.type == "year" then
    let y := parseDigits (e.groups.getD 0 [])
    { year := some y, normalized_year := some y, precision := some "year" }
  else if e.type == "dynasty" then
    match lookupDynasty (String.mk (e.groups.getD 0 [])) with
    | some (s, en, d) =>
        { dynasty := some (String.mk (e.groups.getD 0 [])),
          start_year := some s, end_year := some en,
          description := some d, precision := some "dynasty" }
    | none => {}
  else if e.type == "century" then
    let c := parseDigits (e.groups.getD 0 [])
    { century := some c, start_year := some ((c - 1) * 100 + 1),
      end_year := some (c * 100), precision := some "century" }
  else if e.type == "month_day" then
    { month := some (parseDigits (e.groups.getD 0 [])),
      day := some (parseDigits (e.groups.getD 1 [])),
      precision := some "day" }
  else if e.type == "historical_period" then
    match lookupDynasty (String.mk (e.groups.getD 0 [])) with
    | some (s, en, _) =>
        { period := some (String.mk (e.groups.getD 0 [])),
          start_year := some s, end_year := some en,
          precision := some "period" }
    | none => {}
  else
    {}

/-- `time_expr.update(parsed_time)`: copy the parsed keys onto the record
(the record starts with all parsed keys absent, so overwriting is copying). -/
def applyParsed (e : TimeExpression) (p : ParsedTime) : TimeExpression :=
  { e with
    year := p.year, normalized_year := p.normalized_year,
    dynasty := p.dynasty, start_year := p.start_year, end_year := p.end_year,
    description := p.description, century := p.century, month := p.month,
    day := p.day, period := p.period, precision := p.precision }

/-- The per-match body of the extraction loop: parse, and update the record
only when the parsed dict is truthy; the match is appended either way. -/
def processMatch (e : TimeExpression) : TimeExpression :=
  let p := parse_time_expression e
  if p.nonempty then applyParsed e p else e

/-- Build the raw `time_expr` dict from one `finditer` match of a pattern. -/
def mkTimeExpr (text : List Char) (p : TimePattern) (m : RawMatch) : TimeExpression :=
  { text := (text.drop m.start).take (m.endPos - m.start),
    type := p.type, start := m.start, endPos := m.endPos,
    groups := m.groups, priority := p.priority }

/-- Comparison key of `sorted(self.time_patterns, key=lambda x: x['priority'])`. -/
def lePatternPriority (a b : TimePattern) : Bool :=
  a.priority ≤ b.priority

/-- All raw matches of all patterns (patterns stably sorted by priority, as
in `extract_time_expressions`), with the per-match parse applied. -/
def rawExpressions (text : List Char) : List TimeExpression :=
  (insertionSortB lePatternPriority time_patterns).flatMap
    (fun p => (finditer p.matchAt text).map
      (fun m => processMatch (mkTimeExpr text p m)))

/-- Comparison key of `sorted(..., key=lambda x: (x['start'], x['priority']))`. -/
def leStartPriority (a b : TimeExpression) : Bool :=
  decide (a.start < b.start) || (decide (a.start = b.start) && decide (a.priority ≤ b.priority))

/-- Comparison key of `time_expressions.sort(key=lambda x: x['start'])`. -/
def leStart (a b : TimeExpression) : Bool :=
  a.start ≤ b.start

/-- The span key used for deduplication. -/
def exprSpan (e : TimeExpression) : Nat × Nat :=
  (e.start, e.endPos)

/-- The scan of `_deduplicate_time_expressions`: keep an expression when its
`(start, end)` span has not been seen yet. -/
def dedupScan : List TimeExpression → List (Nat × Nat) → List TimeExpression
  | [], _ => []
  | e :: es, seen =>
    if exprSpan e ∈ seen then dedupScan es seen
    else e :: dedupScan es (exprSpan e :: seen)

/-- Model of `TimelineExtractor._deduplicate_time_expressions`. -/
def deduplicate_time_expressions (l : List TimeExpression) : List TimeExpression :=
  if l.isEmpty then []
  else dedupScan (insertionSortB leStartPriority l) []

/-- Model of `TimelineExtractor.extract_time_expressions`. The source's
`options` parameter is omitted here because the method never reads it. -/
def extract_time_expressions (text : List Char) : List TimeExpression :=
  if text.isEmpty then []
  else insertionSortB leStart (deduplicate_time_expressions (rawExpressions text))

/-! ### Events (`extract_events` and helpers) -/

/-- The external Tokenizer capability (`jieba.lcut` and `jieba.posseg.lcut`);
the engine is parametric in it. -/
structure Tokenizer where
  lcut : List Char → List String
  posseg : List Char → List (String × String)

/-- An entity record produced by `_extract_entities`. -/
structure Entity where
  text : String
  type : String
  pos : String
deriving Repr, DecidableEq

/-- An event record. Keys `_normalize_event_time` may add are `Option`
fields (absent key = `none`). -/
structure Event where
  sentence : List Char
  sentence_index : Nat
  time_expressions : List TimeExpression
  event_type : String
  entities : List Entity
  keywords : List String
  confidence : ℚ
  primary_time : Option TimeExpression := none
  time_precision : Option String := none
  normalized_year : Option Int := none
  year_range : Option (Int × Int) := none
deriving Repr, DecidableEq

/-- Python whitespace for `str.strip()` (the characters relevant here). -/
def isPySpace (c : Char) : Bool :=
  c == ' ' || c == '\t' || c == '\n' || c == '\r' ||
  c == '\x0b' || c == '\x0c' || c == ' ' || c == '　'

/-- `s.strip()`. -/
def pyStrip (s : List Char) : List Char :=
  ((s.dropWhile isPySpace).reverse.dropWhile isPySpace).reverse

/-- The sentence separators of `_split_sentences` (`[。！？；\n]+`). -/
def isSentenceSep (c : Char) : Bool :=
  c == '。' || c == '！' || c == '？' || c == '；' || c == '\n'

/-- Split on single separator characters. `re.split` with `+` collapses
separator runs, but the collapsed variant differs from this one only in
empty pieces, and `_split_sentences` drops every piece that strips to
empty, so the composite below is extensionally the source's. -/
def splitSeps : List Char → List (List Char)
  | [] => [[]]
  | c :: cs =>
    if isSentenceSep c then [] :: splitSeps cs
    else
      match splitSeps cs with
      | [] => [[c]]
      | h :: t => (c :: h) :: t

/-- Model of `TimelineExtractor._split_sentences`. -/
def split_sentences (text : List Char) : List (List Char) :=
  ((splitSeps text).map pyStrip).filter (fun s => !s.isEmpty)

/-- Substring containment (`time_text in sentence`). -/
def isInfixB (needle hay : List Char) : Bool :=
  match hay with
  | [] => needle.isEmpty
  | _ :: t => needle.isPrefixOf hay || isInfixB needle t

/-- Model of `TimelineExtractor._is_time_in_sentence` (substring test on the
expression's literal text, not an offset test). -/
def is_time_in_sentence (e : TimeExpression) (sentence : List Char) : Bool :=
  isInfixB e.text sentence

/-- Size of `set(words) ∩ set(kws)`. -/
def interCount (words kws : List String) : Nat :=
  (words.dedup.filter (fun w => kws.contains w)).length

/-- Python `max(xs, key=...)` over an association list: the first entry with
the maximal value wins. -/
def maxByFirst : List (String × Nat) → Option (String × Nat)
  | [] => none
  | x :: xs =>
    match maxByFirst xs with
    | none => some x
    | some m => if m.2 > x.2 then some m else some x

/-- Model of `TimelineExtractor._classify_event_type`: `type_scores` keeps
only categories with a positive intersection (dict insertion order =
declaration order), and `max(..., key=...)` returns the first maximal one. -/
def classify_event_type (words : List String) : String :=
  let type_scores := (event_keywords.map (fun p => (p.1, interCount words p.2))).filter
    (fun q => q.2 > 0)
  match maxByFirst type_scores with
  | some m => m.1
  | none => "其他"

/-- Model of `TimelineExtractor._extract_entities`: re-tag
`''.join(words)` with the Tokenizer's POS capability and map tags to
entity categories. -/
def extract_entities (tok : Tokenizer) (words : List String) : List Entity :=
  let text := (words.map String.data).flatten
  (tok.posseg text).filterMap (fun wp =>
    if wp.2 == "nr" then some ⟨wp.1, "人物", wp.2⟩
    else if wp.2 == "ns" then some ⟨wp.1, "地点", wp.2⟩
    else if wp.2 == "nt" then some ⟨wp.1, "机构", wp.2⟩
    else if (wp.2 == "n" || wp.2 == "nz") && wp.1.length ≥ 2 then some ⟨wp.1, "概念", wp.2⟩
    else none)

/-- The stop-word set of `_extract_event_keywords`. -/
def stop_words : List String :=
  ["的", "了", "在", "是", "有", "和", "就", "不", "人", "都", "一"]

/-- Model of `TimelineExtractor._extract_event_keywords`. -/
def extract_event_keywords (words : List String) : List String :=
  ((words.filter (fun w => w.length ≥ 2 && !stop_words.contains w)).take 10)

/-- Model of `TimelineExtractor._calculate_event_confidence`; float
literals become exact rationals. -/
def calculate_event_confidence (sentence : List Char) (texprs : List TimeExpression)
    (event_type : String) : ℚ :=
  let c1 : ℚ := 0 + 3/10
  let c2 : ℚ := c1 + min ((texprs.length : ℚ) * (2/10)) (4/10)
  let c3 : ℚ := if 10 ≤ sentence.length ∧ sentence.length ≤ 100 then c2 + 2/10 else c2
  let c4 : ℚ := if event_type ≠ "其他" then c3 + 1/10 else c3
  min c4 1

/-- The precision ranking of `_normalize_event_time`. -/
def precision_map : List (String × Nat) :=
  [("year", 4), ("month_day", 3), ("dynasty", 2), ("century", 2),
   ("period", 1), ("relative_period", 0)]

/-- `precision_map.get(time_expr.get('precision', ''), 0)`. -/
def effRank (e : TimeExpression) : Nat :=
  ((precision_map.find? (fun q => q.1 == e.precision.getD "")).map (fun q => q.2)).getD 0

/-- The selection loop of `_normalize_event_time`: replace the best
candidate only on a strictly greater rank (initial best precision 0). -/
def bestTimeScan : Option TimeExpression → Nat → List TimeExpression →
    Option TimeExpression × Nat
  | b, p, [] => (b, p)
  | b, p, e :: es =>
    if effRank e > p then bestTimeScan (some e) (effRank e) es
    else bestTimeScan b p es

/-- The normalized-time fields `_normalize_event_time` can add to an event. -/
structure NormalizedTime where
  primary_time : TimeExpression
  time_precision : String
  normalized_year : Option Int := none
  year_range : Option (Int × Int) := none
deriving Repr, DecidableEq

/-- Model of `TimelineExtractor._normalize_event_time`. In the source the
two keys `start_year`/`end_year` are always added together, so reading
`best_time['end_year']` after testing `'start_year' in best_time` cannot
fail; the `match` below mirrors that pairing. -/
def normalize_event_time (texprs : List TimeExpression) : Option NormalizedTime :=
  if texprs.isEmpty then none
  else
    match (bestTimeScan none 0 texprs).1 with
    | none => none
    | some bt =>
      some { primary_time := bt,
             time_precision := bt.precision.getD "unknown",
             normalized_year :=
               match bt.year with
               | some y => some y
               | none => bt.start_year,
             year_range :=
               match bt.year, bt.start_year, bt.end_year with
               | none, some s, some en => some (s, en)
               | _, _, _ => none }

/-- Model of `TimelineExtractor._extract_event_from_sentence`. -/
def extract_event_from_sentence (tok : Tokenizer) (sentence : List Char)
    (texprs : List TimeExpression) (sentence_index : Nat) : Option Event :=
  if sentence.isEmpty || texprs.isEmpty then none
  else
    let words := tok.lcut sentence
    let event_type := classify_event_type words
    let base : Event :=
      { sentence := sentence, sentence_index := sentence_index,
        time_expressions := texprs, event_type := event_type,
        entities := extract_entities tok words,
        keywords := extract_event_keywords words,
        confidence := calculate_event_confidence sentence texprs event_type }
    match normalize_event_time texprs with
    | some nt =>
        some ({ base with
                primary_time := some nt.primary_time,
                time_precision := some nt.time_precision,
                normalized_year := nt.normalized_year,
                year_range := nt.year_range })
    | none => some base

/-- The recognized keys of the `options` dict passed to `extract_events` /
`_post_process_events` (absent key = `none`, falling back to the default). -/
structure EventOptions where
  min_confidence : Option ℚ := none
  max_events : Option Nat := none
deriving Repr, DecidableEq

/-- The confidence filter of `_post_process_events` (its first step). -/
def confidenceFilter (events : List Event) (options : EventOptions) : List Event :=
  events.filter (fun e => options.min_confidence.getD (3/10) ≤ e.confidence)

/-- The sort key of `_post_process_events` (`get_sort_key`). -/
def eventSortKey (e : Event) : Int :=
  match e.normalized_year with
  | some y => y
  | none =>
    match e.time_expressions with
    | te :: _ => (te.start : Int)
    | [] => (e.sentence_index : Int)

/-- Comparison of the stable sort in `_post_process_events`. -/
def leEventKey (a b : Event) : Bool :=
  eventSortKey a ≤ eventSortKey b

/-- Model of `TimelineExtractor._post_process_events`. -/
def post_process_events (events : List Event) (options : EventOptions) : List Event :=
  if events.isEmpty then []
  else
    (insertionSortB leEventKey (confidenceFilter events options)).take
      (options.max_events.getD 50)

/-- The per-sentence loop body of `extract_events`. -/
def eventsOfSentences (tok : Tokenizer) (texprs : List TimeExpression) :
    List (Nat × List Char) → List Event
  | [] => []
  | (i, sentence) :: rest =>
    let sentence_times := texprs.filter (fun te => is_time_in_sentence te sentence)
    let tail := eventsOfSentences tok texprs rest
    if !sentence_times.isEmpty then
      match extract_event_from_sentence tok sentence sentence_times i with
      | some ev => ev :: tail
      | none => tail
    else tail

/-- Model of `TimelineExtractor.extract_events` (with the time-expression
list supplied, as `analyze` always does). -/
def extract_events (tok : Tokenizer) (text : List Char)
    (texprs : List TimeExpression) (options : EventOptions) : List Event :=
  if text.isEmpty then []
  else
    post_process_events
      (eventsOfSentences tok texprs (split_sentences text).enum)
      options

/-! ### Timeline (`build_timeline` and helpers) -/

/-- The recognized keys of the options dict used by `build_timeline`. -/
structure TimelineOptions where
  group_by : Option String := none
  max_events_per_node : Option Nat := none
deriving Repr, DecidableEq

/-- The first dynasty-typed time expression of an event, as used by the
fallback loop at the end of `_get_timeline_group_key`. -/
def dynastyFallback (e : Event) : Option String :=
  match e.time_expressions.find? (fun te => te.type == "dynasty") with
  | some te => some (te.dynasty.getD "未知朝代")
  | none => none

/-- Model of `TimelineExtractor._get_timeline_group_key`. Python's floor
division `//` is `Int.fdiv`. A `group_by` value outside
`{century, dynasty, year}` falls through the `if` chain to the dynasty
fallback, exactly as in the source. -/
def get_timeline_group_key (e : Event) (options : TimelineOptions) : Option String :=
  let group_by := options.group_by.getD "century"
  match e.normalized_year with
  | some year =>
    if group_by == "century" then
      if year > 0 then
        some (toString ((year - 1).fdiv 100 + 1) ++ "世纪")
      else
        some ("公元前" ++ toString (|year|.fdiv 100 + 1) ++ "世纪")
    else if group_by == "dynasty" then
      match dynasty_periods.find? (fun p => p.2.1 ≤ year && year ≤ p.2.2.1) with
      | some p => some p.1
      | none => some "未知时期"
    else if group_by == "year" then
      some (toString year)
    else
      dynastyFallback e
  | none => dynastyFallback e

/-- Append an event to its group, inserting a new group at the end on a new
key (`defaultdict` insertion order). -/
def addToGroup (gs : List (String × List Event)) (k : String) (e : Event) :
    List (String × List Event) :=
  match gs with
  | [] => [(k, [e])]
  | g :: t => if g.1 == k then (g.1, g.2 ++ [e]) :: t else g :: addToGroup t k e

/-- The grouping pass of `build_timeline`: events without a group key are
silently skipped. -/
def timelineGroups (events : List Event) (options : TimelineOptions) :
    List (String × List Event) :=
  events.foldl
    (fun gs e =>
      match get_timeline_group_key e options with
      | some k => addToGroup gs k e
      | none => gs)
    []

/-- Bump a counter key (`defaultdict(int)` with insertion order). -/
def bumpCount (l : List (String × Nat)) (k : String) : List (String × Nat) :=
  match l with
  | [] => [(k, 1)]
  | p :: t => if p.1 == k then (p.1, p.2 + 1) :: t else p :: bumpCount t k

/-- Count occurrences preserving first-seen key order. -/
def countsOf (ks : List String) : List (String × Nat) :=
  ks.foldl bumpCount []

/-- `min(years)` / `max(years)` guarded by `if years`. -/
def listMin? : List Int → Option Int
  | [] => none
  | x :: xs => some (xs.foldl min x)

def listMax? : List Int → Option Int
  | [] => none
  | x :: xs => some (xs.foldl max x)

/-- The `years` list collected by `_create_timeline_node`: an event
contributes its `normalized_year` when present, and only otherwise its
`year_range` endpoints (the source's `elif`). -/
def nodeYears (events : List Event) : List Int :=
  events.flatMap (fun e =>
    match e.normalized_year with
    | some y => [y]
    | none =>
      match e.year_range with
      | some (s, en) => [s, en]
      | none => [])

/-- Comparison of `sorted(..., key=lambda x: x[1], reverse=True)` (stable
descending by count). -/
def leCountDesc (a b : String × Nat) : Bool :=
  b.2 ≤ a.2

/-- A `{'name': ..., 'count': ...}` record. -/
structure NamedCount where
  name : String
  count : Nat
deriving Repr, DecidableEq

/-- A timeline node. -/
structure TimelineNode where
  period : String
  event_count : Nat
  events : List Event
  event_types : List (String × Nat)
  top_entities : List NamedCount
  time_range : Option Int × Option Int
  sort_key : Int
deriving Repr, DecidableEq

/-- Model of `TimelineExtractor._create_timeline_node`. -/
def create_timeline_node (group_key : String) (events : List Event)
    (options : TimelineOptions) : Option TimelineNode :=
  if events.isEmpty then none
  else
    let years := nodeYears events
    let event_types := countsOf (events.map (fun e => e.event_type))
    let all_entities := events.flatMap (fun e => e.entities)
    let entity_counter := countsOf (all_entities.map (fun en => en.text))
    let top_entities := (insertionSortB leCountDesc entity_counter).take 10
    some { period := group_key,
           event_count := events.length,
           events := events.take (options.max_events_per_node.getD 10),
           event_types := event_types,
           top_entities := top_entities.map (fun p => ⟨p.1, p.2⟩),
           time_range := (listMin? years, listMax? years),
           sort_key := (listMin? years).getD 0 }

/-- The `time_span` statistics dict (`{}` when no event has a year). -/
structure TimeSpan where
  earliest : Int
  latest : Int
  span_years : Int
deriving Repr, DecidableEq

/-- The `statistics` dict of `build_timeline`. -/
structure TimelineStats where
  total_periods : Nat
  total_events : Nat
  event_distribution : List (String × Nat)
  entity_distribution : List (String × Nat)
  time_span : Option TimeSpan
deriving Repr, DecidableEq

/-- Model of `TimelineExtractor._calculate_timeline_stats`. -/
def calculate_timeline_stats (timeline_nodes : List TimelineNode)
    (events : List Event) : TimelineStats :=
  let event_distribution := countsOf (events.map (fun e => e.event_type))
  let entity_counter := countsOf ((events.flatMap (fun e => e.entities)).map (fun en => en.text))
  let entity_distribution := (insertionSortB leCountDesc entity_counter).take 20
  let all_years := events.filterMap (fun e => e.normalized_year)
  { total_periods := timeline_nodes.length,
    total_events := events.length,
    event_distribution := event_distribution,
    entity_distribution := entity_distribution,
    time_span :=
      match listMin? all_years, listMax? all_years with
      | some mn, some mx => some ⟨mn, mx, mx - mn⟩
      | _, _ => none }

/-- Comparison of the node sort in `build_timeline`
(`key=lambda x: x.get('sort_key', 0)`; the key is always present). -/
def leNodeKey (a b : TimelineNode) : Bool :=
  a.sort_key ≤ b.sort_key

/-- The timeline dict returned by a non-trivial `build_timeline`. -/
structure Timeline where
  timeline : List TimelineNode
  statistics : TimelineStats
  total_events : Nat
  total_periods : Nat
deriving Repr, DecidableEq

/-- Model of `TimelineExtractor.build_timeline`; `none` is the source's
early `return {}` on an empty event list. -/
def build_timeline (events : List Event) (options : TimelineOptions) : Option Timeline :=
  if events.isEmpty then none
  else
    let timeline_nodes :=
      (timelineGroups events options).filterMap
        (fun g => create_timeline_node g.1 g.2 options)
    let timeline_nodes := insertionSortB leNodeKey timeline_nodes
    some { timeline := timeline_nodes,
           statistics := calculate_timeline_stats timeline_nodes events,
           total_events := events.length,
           total_periods := timeline_nodes.length }

/-! ### Top-level `analyze` -/

/-- The recognized keys of the top-level options dict. `analyze` itself
reads only the three nested option bags; the flat `min_confidence`,
`max_events` and `group_by` keys can be present in the dict (they are
modelled here) but no code reads them at the top level. The
`time_extraction` bag is likewise passed through to a method that never
reads it, so it carries no fields. -/
structure AnalyzeOptions where
  min_confidence : Option ℚ := none
  max_events : Option Nat := none
  group_by : Option String := none
  event_extraction : EventOptions := {}
  timeline_building : TimelineOptions := {}
deriving Repr, DecidableEq

/-- The `summary` dict of the result envelope. -/
structure Summary where
  time_expressions_count : Nat
  events_count : Nat
  timeline_periods : Nat
deriving Repr, DecidableEq

/-- The result envelope of `analyze`. -/
structure AnalyzeResult where
  time_expressions : List TimeExpression
  events : List Event
  timeline : Option Timeline
  summary : Summary
deriving Repr, DecidableEq

/-- Model of `TimelineExtractor.analyze`; `none` is the source's early
`return {}` on falsy input. Nothing in the remaining body raises, so the
`try/except/raise` wrapper adds no behavior to model. -/
def analyze (tok : Tokenizer) (text : List Char) (options : AnalyzeOptions) :
    Option AnalyzeResult :=
  if text.isEmpty then none
  else
    let time_expressions := extract_time_expressions text
    let events := extract_events tok text time_expressions options.event_extraction
    let timeline := build_timeline events options.timeline_building
    some { time_expressions := time_expressions,
           events := events,
           timeline := timeline,
           summary :=
             { time_expressions_count := time_expressions.length,
               events_count := events.length,
               timeline_periods := (timeline.map (fun t => t.total_periods)).getD 0 } }

/-- A concrete conforming Tokenizer used to instantiate the capability in
closed statements: single-character segmentation with an uninformative POS
tag. -/
def charTok : Tokenizer :=
  { lcut := fun s => s.map (fun c => String.mk [c]),
    posseg := fun s => s.map (fun c => (String.mk [c], "x")) }

/-! ### Helper lemmas on the deduplication scan -/

theorem dedupScan_subset {l : List TimeExpression} {seen : List (Nat × Nat)}
    {e : TimeExpression} (h : e ∈ dedupScan l seen) : e ∈ l := by
  induction l generalizing seen with
  | nil => simp [dedupScan] at h
  | cons a l ih =>
    by_cases ha : exprSpan a ∈ seen
    · rw [dedupScan, if_pos ha] at h
      exact List.mem_cons_of_mem a (ih h)
    · rw [dedupScan, if_neg ha] at h
      rcases List.mem_cons.mp h with rfl | h
      · exact List.mem_cons_self e l
      · exact List.mem_cons_of_mem a (ih h)

theorem dedupScan_span_not_seen {l : List TimeExpression} {seen : List (Nat × Nat)}
    {e : TimeExpression} (h : e ∈ dedupScan l seen) : exprSpan e ∉ seen := by
  induction l generalizing seen with
  | nil => simp [dedupScan] at h
  | cons a l ih =>
    by_cases ha : exprSpan a ∈ seen
    · rw [dedupScan, if_pos ha] at h
      exact ih h
    · rw [dedupScan, if_neg ha] at h
      rcases List.mem_cons.mp h with rfl | h
      · exact ha
      · intro hseen
        exact ih h (List.mem_cons_of_mem _ hseen)

theorem dedupScan_spans_nodup (l : List TimeExpression) (seen : List (Nat × Nat)) :
    ((dedupScan l seen).map exprSpan).Nodup := by
  induction l generalizing seen with
  | nil => simp [dedupScan]
  | cons a l ih =>
    by_cases ha : exprSpan a ∈ seen
    · rw [dedupScan, if_pos ha]
      exact ih seen
    · rw [dedupScan, if_neg ha]
      refine List.nodup_cons.mpr ⟨?_, ih _⟩
      intro hmem
      rcases List.mem_map.mp hmem with ⟨e, he, hspan⟩
      exact dedupScan_span_not_seen he (by rw [hspan]; exact List.mem_cons_self _ _)

/-- The sorting predicate fed to the deduplication scan, as a Prop. -/
def lePairProp (a b : TimeExpression) : Prop :=
  leStartPriority a b = true

theorem dedupScan_coverage {l : List TimeExpression} (seen : List (Nat × Nat))
    (hsort : l.Pairwise lePairProp) {m : TimeExpression} (hm : m ∈ l) :
    exprSpan m ∈ seen ∨
      ∃ e ∈ dedupScan l seen, exprSpan e = exprSpan m ∧ e.priority ≤ m.priority := by
  induction l generalizing seen with
  | nil => cases hm
  | cons a l ih =>
    rcases List.pairwise_cons.mp hsort with ⟨ha, hl⟩
    by_cases haseen : exprSpan a ∈ seen
    · rw [dedupScan, if_pos haseen]
      rcases List.mem_cons.mp hm with rfl | hm
      · exact Or.inl haseen
      · exact ih seen hl hm
    · rw [dedupScan, if_neg haseen]
      rcases List.mem_cons.mp hm with rfl | hm
      · exact Or.inr ⟨m, List.mem_cons_self _ _, rfl, le_refl _⟩
      · rcases ih (exprSpan a :: seen) hl hm with hseen | ⟨e, he, hspan, hprio⟩
        · rcases List.mem_cons.mp hseen with heq | hseen
          · refine Or.inr ⟨a, List.mem_cons_self _ _, heq.symm, ?_⟩
            have hle : lePairProp a m := ha m hm
            have hstart : a.start = m.start := by
              have h1 : a.start = m.start ∧ a.endPos = m.endPos := by
                have := heq
                simp only [exprSpan, Prod.mk.injEq] at this
                exact ⟨this.1.symm, this.2.symm⟩
              exact h1.1
            simp only [lePairProp, leStartPriority, Bool.or_eq_true, Bool.and_eq_true,
              decide_eq_true_eq] at hle
            omega
          · exact Or.inl hseen
        · exact Or.inr ⟨e, List.mem_cons_of_mem a he, hspan, hprio⟩

theorem leStartPriority_total (a b : TimeExpression) :
    leStartPriority a b = false → leStartPriority b a = true := by
  simp only [leStartPriority, Bool.or_eq_true, Bool.and_eq_true, decide_eq_true_eq,
    Bool.or_eq_false_iff, Bool.and_eq_false_iff, decide_eq_false_iff_not]
  omega

theorem leStartPriority_trans (a b c : TimeExpression) :
    leStartPriority a b = true → leStartPriority b c = true → leStartPriority a c = true := by
  simp only [leStartPriority, Bool.or_eq_true, Bool.and_eq_true, decide_eq_true_eq]
  omega

theorem leStart_total (a b : TimeExpression) :
    leStart a b = false → leStart b a = true := by
  simp only [leStart, decide_eq_true_eq, decide_eq_false_iff_not]
  omega

theorem leStart_trans (a b c : TimeExpression) :
    leStart a b = true → leStart b c = true → leStart a c = true := by
  simp only [leStart, decide_eq_true_eq]
  omega

/-- Coverage and minimality for the complete `_deduplicate_time_expressions`. -/
theorem deduplicate_coverage {l : List TimeExpression} {m : TimeExpression} (hm : m ∈ l) :
    ∃ e ∈ deduplicate_time_expressions l, exprSpan e = exprSpan m ∧ e.priority ≤ m.priority := by
  have hne : l.isEmpty = false := by
    cases l with
    | nil => cases hm
    | cons a l => rfl
  rw [deduplicate_time_expressions, hne]
  simp only [Bool.false_eq_true, if_false]
  have hsort : (insertionSortB leStartPriority l).Pairwise lePairProp :=
    pairwise_insertionSortB leStartPriority_total leStartPriority_trans l
  have hm' : m ∈ insertionSortB leStartPriority l := mem_insertionSortB.mpr hm
  rcases dedupScan_coverage [] hsort hm' with hseen | h
  · cases hseen
  · exact h

theorem deduplicate_subset {l : List TimeExpression} {e : TimeExpression}
    (h : e ∈ deduplicate_time_expressions l) : e ∈ l := by
  rw [deduplicate_time_expressions] at h
  by_cases hne : l.isEmpty
  · rw [if_pos hne] at h
    cases h
  · rw [if_neg hne] at h
    exact mem_insertionSortB.mp (dedupScan_subset h)

theorem deduplicate_spans_nodup (l : List TimeExpression) :
    ((deduplicate_time_expressions l).map exprSpan).Nodup := by
  rw [deduplicate_time_expressions]
  by_cases hne : l.isEmpty
  · rw [if_pos hne]
    simp
  · rw [if_neg hne]
    exact dedupScan_spans_nodup _ []

/-- Membership in the final start-sorted output of `extract_time_expressions`
coincides with membership in the deduplicated list. -/
theorem mem_extract_iff {text : List Char} {e : TimeExpression} (hne : text.isEmpty = false) :
    e ∈ extract_time_expressions text ↔
      e ∈ deduplicate_time_expressions (rawExpressions text) := by
  rw [extract_time_expressions, hne]
  simp only [Bool.false_eq_true, if_false]
  exact mem_insertionSortB

theorem perm_orderedInsertB (le : α → α → Bool) (a : α) (l : List α) :
    (orderedInsertB le a l).Perm (a :: l) := by
  induction l with
  | nil => exact List.Perm.refl _
  | cons b l ih =>
    by_cases h : le a b = true
    · rw [orderedInsertB, if_pos h]
    · rw [orderedInsertB, if_neg h]
      exact (ih.cons b).trans (List.Perm.swap a b l)

theorem perm_insertionSortB (le : α → α → Bool) (l : List α) :
    (insertionSortB le l).Perm l := by
  induction l with
  | nil => exact List.Perm.refl _
  | cons a l ih =>
    exact (perm_orderedInsertB le a (insertionSortB le l)).trans (ih.cons a)

/-- Span nodup transfers through the final start-sort of
`extract_time_expressions`. -/
theorem extract_spans_nodup (text : List Char) :
    ((extract_time_expressions text).map exprSpan).Nodup := by
  by_cases hne : text.isEmpty
  · rw [extract_time_expressions, if_pos hne]
    simp
  · rw [extract_time_expressions, if_neg hne]
    simp only [Bool.not_eq_true] at hne
    exact ((perm_insertionSortB leStart _).map exprSpan).nodup_iff.mpr
      (deduplicate_spans_nodup (rawExpressions text))

/-! ### Claim C5 -/

/-- C5: for every input text, the output of `extract_time_expressions`
contains at most one expression per `(start, end)` span; every raw pattern
match is represented by an expression on its span; and the retained
expression's `priority` is less than or equal to that of every match
sharing the span — so for two matches on an identical span exactly one
survives, the one with the numerically smaller priority. -/
theorem C5_dedup_retains_min_priority (text : List Char) :
    ((extract_time_expressions text).map exprSpan).Nodup
    ∧ (∀ e ∈ extract_time_expressions text, e ∈ rawExpressions text)
    ∧ (∀ m ∈ rawExpressions text, ∃ e ∈ extract_time_expressions text,
        exprSpan e = exprSpan m ∧ e.priority ≤ m.priority) := by
  refine ⟨extract_spans_nodup text, ?_, ?_⟩
  · intro e he
    by_cases hne : text.isEmpty
    · rw [extract_time_expressions, if_pos hne] at he
      cases he
    · have := (mem_extract_iff (by simpa using hne)).mp he
      exact deduplicate_subset this
  · intro m hm
    by_cases hne : text.isEmpty
    · have htext : text = [] := List.isEmpty_iff.mp hne
      rw [htext] at hm
      have hraw : rawExpressions [] = [] := by decide
      rw [hraw] at hm
      cases hm
    · rcases deduplicate_coverage hm with ⟨e, he, hspan, hprio⟩
      exact ⟨e, (mem_extract_iff (by simpa using hne)).mpr he, hspan, hprio⟩

/-- The year expression extracted from `"1949年"`, used to witness C5. -/
def w5expr : TimeExpression :=
  { text := ['1', '9', '4', '9', '年'], type := "year", start := 0, endPos := 5,
    groups := [['1', '9', '4', '9']], priority := 1,
    year := some 1949, normalized_year := some 1949, precision := some "year" }

theorem C5_witness : ∃ e ∈ extract_time_expressions "1949年".data,
    exprSpan e = exprSpan w5expr ∧ e.priority ≤ w5expr.priority :=
  (C5_dedup_retains_min_priority "1949年".data).2.2 w5expr (by decide)

/-! ### Claim C6 (corrected) -/

/-- C6 counterexample: in `"汉代"` the dynasty match captures `汉`, whose
`dynasty_periods` lookup fails (the key is `汉朝`) — the spec calls this a
parse failure that discards the match, yet the match is still present in
the result, merely without parsed fields. -/
theorem C6_counterexample :
    (extract_time_expressions "汉代".data).map
        (fun e => (e.type, e.start, e.endPos, e.start_year, e.precision)) =
      [("dynasty", 0, 2, none, none)] := by
  decide

/-- C6 amended: a match whose type-specific parse produces nothing is kept
unchanged (not discarded), and every raw pattern match still has an
expression on its span in the final result; extraction continues over the
remaining matches. -/
theorem C6_parse_failure_keeps_match (text : List Char) :
    (∀ e, (parse_time_expression e).nonempty = false → processMatch e = e)
    ∧ ∀ e ∈ rawExpressions text, ∃ g ∈ extract_time_expressions text,
        exprSpan g = exprSpan e := by
  constructor
  · intro e h
    rw [processMatch]
    simp [h]
  · intro e he
    by_cases hne : text.isEmpty
    · have htext : text = [] := List.isEmpty_iff.mp hne
      rw [htext] at he
      have hraw : rawExpressions [] = [] := by decide
      rw [hraw] at he
      cases he
    · rcases deduplicate_coverage he with ⟨g, hg, hspan, _⟩
      exact ⟨g, (mem_extract_iff (by simpa using hne)).mpr hg, hspan⟩

/-- The unparsed dynasty expression from `"汉代"`, used to witness C6. -/
def w6expr : TimeExpression :=
  { text := ['汉', '代'], type := "dynasty", start := 0, endPos := 2,
    groups := [['汉']], priority := 2 }

theorem C6_witness :
    processMatch w6expr = w6expr ∧
      ∃ g ∈ extract_time_expressions "汉代".data, exprSpan g = exprSpan w6expr :=
  ⟨(C6_parse_failure_keeps_match "汉代".data).1 w6expr (by decide),
   (C6_parse_failure_keeps_match "汉代".data).2 w6expr (by decide)⟩

/-! ### Claim C2 (code bug) -/

/-- C2: the dynasty pattern's capturing group yields only the stem `唐`
(the `朝` suffix is non-capturing), while `dynasty_periods` keys the Tang
entry as `唐朝`; the lookup therefore misses, and the `TimeExpression`
extracted from `"唐朝"` has `type = "dynasty"` but no
`start_year`/`end_year` — contradicting the claimed 618/907, which the
table itself records for `唐朝`. -/
theorem C2_dynasty_years_missing :
    (extract_time_expressions "唐朝".data).map
        (fun e => (e.type, e.start, e.endPos, e.groups, e.dynasty, e.start_year, e.end_year)) =
      [("dynasty", 0, 2, [['唐']], none, none, none)]
    ∧ lookupDynasty "唐朝" = some (618, 907, "盛唐时期")
    ∧ lookupDynasty "唐" = none := by
  exact ⟨by rfl, by rfl, by rfl⟩

/-! ### Claim C9: the event classifier -/

/-- Characterization of Python's `max(type_scores, key=type_scores.get)` over
the positive-score association list built by `_classify_event_type`. -/
theorem classifyScan_spec (words : List String) (cats : List (String × List String)) :
    (maxByFirst ((cats.map (fun p => (p.1, interCount words p.2))).filter (fun q => q.2 > 0)) = none
      ∧ ∀ p ∈ cats, interCount words p.2 = 0)
    ∨ (∃ m, maxByFirst ((cats.map (fun p => (p.1, interCount words p.2))).filter (fun q => q.2 > 0)) = some m
        ∧ ∃ kws l1 l2, cats = l1 ++ (m.1, kws) :: l2
          ∧ m.2 = interCount words kws ∧ 0 < m.2
          ∧ (∀ p ∈ cats, interCount words p.2 ≤ m.2)
          ∧ (∀ p ∈ l1, interCount words p.2 < m.2)) := by
  induction cats with
  | nil => left; exact ⟨rfl, by intro p hp; cases hp⟩
  | cons p cs ih =>
    by_cases hs : interCount words p.2 > 0
    · have hfilter : ((p :: cs).map (fun q => (q.1, interCount words q.2))).filter (fun q => q.2 > 0) =
          (p.1, interCount words p.2) ::
            ((cs.map (fun q => (q.1, interCount words q.2))).filter (fun q => q.2 > 0)) := by
        simp [List.filter_cons, hs]
      rcases ih with ⟨hnone, hall⟩ | ⟨m, hm, kws, l1, l2, hdec, hmv, hpos, hall, hl1⟩
      · right
        refine ⟨(p.1, interCount words p.2), ?_, p.2, [], cs, rfl, rfl, hs, ?_, ?_⟩
        · rw [hfilter, maxByFirst, hnone]
        · intro q hq
          rcases List.mem_cons.mp hq with rfl | hq
          · exact le_refl _
          · rw [hall q hq]; exact Nat.zero_le _
        · intro q hq; cases hq
      · right
        by_cases hgt : m.2 > interCount words p.2
        · refine ⟨m, ?_, kws, p :: l1, l2, by rw [List.cons_append, ← hdec], hmv, hpos, ?_, ?_⟩
          · rw [hfilter]; simp [maxByFirst, hm, hgt]
          · intro q hq
            rcases List.mem_cons.mp hq with rfl | hq
            · exact le_of_lt hgt
            · exact hall q hq
          · intro q hq
            rcases List.mem_cons.mp hq with rfl | hq
            · exact hgt
            · exact hl1 q hq
        · refine ⟨(p.1, interCount words p.2), ?_, p.2, [], cs, rfl, rfl, hs, ?_, ?_⟩
          · rw [hfilter]; simp [maxByFirst, hm, hgt]
          · intro q hq
            rcases List.mem_cons.mp hq with rfl | hq
            · exact le_refl _
            · exact le_trans (hall q hq) (Nat.le_of_not_lt hgt)
          · intro q hq; cases hq
    · have hfilter : ((p :: cs).map (fun q => (q.1, interCount words q.2))).filter (fun q => q.2 > 0) =
          (cs.map (fun q => (q.1, interCount words q.2))).filter (fun q => q.2 > 0) := by
        simp [List.filter_cons, hs]
      have hs0 : interCount words p.2 = 0 := Nat.eq_zero_of_not_pos hs
      rcases ih with ⟨hnone, hall⟩ | ⟨m, hm, kws, l1, l2, hdec, hmv, hpos, hall, hl1⟩
      · left
        refine ⟨by rw [hfilter]; exact hnone, ?_⟩
        intro q hq
        rcases List.mem_cons.mp hq with rfl | hq
        · exact hs0
        · exact hall q hq
      · right
        refine ⟨m, by rw [hfilter]; exact hm, kws, p :: l1, l2,
          by rw [List.cons_append, ← hdec], hmv, hpos, ?_, ?_⟩
        · intro q hq
          rcases List.mem_cons.mp hq with rfl | hq
          · rw [hs0]; exact Nat.zero_le _
          · exact hall q hq
        · intro q hq
          rcases List.mem_cons.mp hq with rfl | hq
          · rw [hs0]; exact hpos
          · exact hl1 q hq

/-- C9: the classifier returns the category with the largest token/keyword
intersection; among equal maxima the first-declared category in
`event_keywords` wins; if every intersection is empty it returns `其他`. -/
theorem C9_classifier_argmax (words : List String) :
    (classify_event_type words = "其他" ∧ ∀ p ∈ event_keywords, interCount words p.2 = 0)
    ∨ (∃ kws l1 l2, event_keywords = l1 ++ (classify_event_type words, kws) :: l2
        ∧ 0 < interCount words kws
        ∧ (∀ p ∈ event_keywords, interCount words p.2 ≤ interCount words kws)
        ∧ (∀ p ∈ l1, interCount words p.2 < interCount words kws)) := by
  rcases classifyScan_spec words event_keywords with ⟨hnone, hall⟩ |
    ⟨m, hm, kws, l1, l2, hdec, hmv, hpos, hall, hl1⟩
  · left
    refine ⟨?_, hall⟩
    rw [classify_event_type, hnone]
  · right
    have hcl : classify_event_type words = m.1 := by
      rw [classify_event_type, hm]
    refine ⟨kws, l1, l2, by rw [hcl, ← hdec], ?_, ?_, ?_⟩
    · rw [← hmv]; exact hpos
    · intro p hp; rw [← hmv]; exact hall p hp
    · intro p hp; rw [← hmv]; exact hl1 p hp

theorem C9_witness :
    (classify_event_type ["战争"] = "其他" ∧ ∀ p ∈ event_keywords, interCount ["战争"] p.2 = 0)
    ∨ (∃ kws l1 l2, event_keywords = l1 ++ (classify_event_type ["战争"], kws) :: l2
        ∧ 0 < interCount ["战争"] kws
        ∧ (∀ p ∈ event_keywords, interCount ["战争"] p.2 ≤ interCount ["战争"] kws)
        ∧ (∀ p ∈ l1, interCount ["战争"] p.2 < interCount ["战争"] kws)) :=
  C9_classifier_argmax ["战争"]

/-! ### Claim C10: confidence bounds -/

theorem calc_confidence_lower {sentence : List Char} {texprs : List TimeExpression}
    {event_type : String} (h : texprs ≠ []) :
    (1 : ℚ)/2 ≤ calculate_event_confidence sentence texprs event_type := by
  rw [calculate_event_confidence]
  have hn : (1 : ℚ) ≤ (texprs.length : ℚ) := by
    have : 1 ≤ texprs.length := Nat.one_le_iff_ne_zero.mpr
      (fun hc => h (List.length_eq_zero.mp hc))
    exact_mod_cast this
  have hmin : (2 : ℚ)/10 ≤ min ((texprs.length : ℚ) * (2/10)) (4/10) := by
    apply le_min
    · nlinarith
    · norm_num
  have hc2 : (1 : ℚ)/2 ≤ 0 + 3/10 + min ((texprs.length : ℚ) * (2/10)) (4/10) := by
    linarith
  apply le_min _ (by norm_num)
  split <;> split <;> linarith

theorem calc_confidence_upper (sentence : List Char) (texprs : List TimeExpression)
    (event_type : String) :
    calculate_event_confidence sentence texprs event_type ≤ 1 := by
  rw [calculate_event_confidence]
  exact min_le_right _ _

/-- An event returned by `_extract_event_from_sentence` carries the
confidence computed by `_calculate_event_confidence`, and its guard
guarantees a nonempty time-expression list. -/
theorem extract_event_confidence {tok : Tokenizer} {sentence : List Char}
    {texprs : List TimeExpression} {i : Nat} {ev : Event}
    (h : extract_event_from_sentence tok sentence texprs i = some ev) :
    ev.confidence =
        calculate_event_confidence sentence texprs (classify_event_type (tok.lcut sentence))
      ∧ texprs ≠ [] := by
  rw [extract_event_from_sentence] at h
  by_cases hguard : (sentence.isEmpty || texprs.isEmpty) = true
  · rw [if_pos hguard] at h
    cases h
  · rw [if_neg hguard] at h
    have hne : texprs ≠ [] := by
      intro hc
      apply hguard
      rw [hc]
      simp
    cases hnt : normalize_event_time texprs with
    | some nt =>
      rw [hnt] at h
      cases h
      exact ⟨rfl, hne⟩
    | none =>
      rw [hnt] at h
      cases h
      exact ⟨rfl, hne⟩

/-- C10: every event built by `_extract_event_from_sentence` has confidence
in `[1/2, 1]`, and consequently the confidence filter of
`_post_process_events` under the default `min_confidence = 0.3` keeps every
such event. -/
theorem C10_confidence_bounds (tok : Tokenizer) (sentence : List Char)
    (texprs : List TimeExpression) (i : Nat) (ev : Event)
    (h : extract_event_from_sentence tok sentence texprs i = some ev) :
    ((1 : ℚ)/2 ≤ ev.confidence ∧ ev.confidence ≤ 1)
    ∧ ∀ events : List Event, (∀ e ∈ events, (1 : ℚ)/2 ≤ e.confidence) →
        confidenceFilter events {} = events := by
  rcases extract_event_confidence h with ⟨hconf, hne⟩
  constructor
  · rw [hconf]
    exact ⟨calc_confidence_lower hne, calc_confidence_upper _ _ _⟩
  · intro events hall
    rw [confidenceFilter]
    apply List.filter_eq_self.mpr
    intro e he
    have h12 : (3 : ℚ)/10 ≤ e.confidence := le_trans (by norm_num) (hall e he)
    simpa using h12

/-- The unparsed dynasty expression from `"唐朝"`, used in the C10 witness
event. -/
def w10expr : TimeExpression :=
  { text := ['唐', '朝'], type := "dynasty", start := 0, endPos := 2,
    groups := [['唐']], priority := 2 }

/-- The event `_extract_event_from_sentence` builds from the sentence
`唐朝` with `charTok`, used to witness C10. -/
def w10event : Event :=
  { sentence := ['唐', '朝'], sentence_index := 0, time_expressions := [w10expr],
    event_type := classify_event_type (charTok.lcut ['唐', '朝']),
    entities := extract_entities charTok (charTok.lcut ['唐', '朝']),
    keywords := extract_event_keywords (charTok.lcut ['唐', '朝']),
    confidence := calculate_event_confidence ['唐', '朝'] [w10expr]
      (classify_event_type (charTok.lcut ['唐', '朝'])) }

theorem C10_witness :
    (((1 : ℚ)/2 ≤ w10event.confidence ∧ w10event.confidence ≤ 1)
      ∧ confidenceFilter [w10event] {} = [w10event]) := by
  have h := C10_confidence_bounds charTok ['唐', '朝'] [w10expr] 0 w10event (by rfl)
  refine ⟨h.1, h.2 [w10event] ?_⟩
  intro e he
  rw [List.mem_singleton] at he
  rw [he]
  exact h.1.1

/-! ### Pipeline evaluation lemmas -/

/-- On nonempty text, `analyze` returns `some`, and any function of the
events list reads the post-processed `extract_events` output. -/
theorem analyze_map_events {α : Type} (tok : Tokenizer) (text : List Char)
    (opts : AnalyzeOptions) (hne : text.isEmpty = false) (f : List Event → α) :
    (analyze tok text opts).map (fun r => f r.events) =
      some (f (extract_events tok text (extract_time_expressions text) opts.event_extraction)) := by
  rw [analyze, hne]
  rfl

/-- The event record `_extract_event_from_sentence` returns on a nonempty
sentence with a nonempty expression list, described field by field. -/
theorem extract_event_fields (tok : Tokenizer) (S : List Char) (tes : List TimeExpression)
    (i : Nat) (hS : S.isEmpty = false) (ht : tes.isEmpty = false) :
    ∃ ev, extract_event_from_sentence tok S tes i = some ev
      ∧ ev.time_expressions = tes
      ∧ ev.primary_time = (normalize_event_time tes).map (fun nt => nt.primary_time)
      ∧ ev.normalized_year = (normalize_event_time tes).bind (fun nt => nt.normalized_year)
      ∧ ev.time_precision = (normalize_event_time tes).map (fun nt => nt.time_precision)
      ∧ ev.year_range = (normalize_event_time tes).bind (fun nt => nt.year_range)
      ∧ ev.confidence = calculate_event_confidence S tes (classify_event_type (tok.lcut S)) := by
  have hguard : (S.isEmpty || tes.isEmpty) = false := by rw [hS, ht]; rfl
  cases hnt : normalize_event_time tes with
  | none =>
    refine ⟨{ sentence := S, sentence_index := i, time_expressions := tes,
              event_type := classify_event_type (tok.lcut S),
              entities := extract_entities tok (tok.lcut S),
              keywords := extract_event_keywords (tok.lcut S),
              confidence := calculate_event_confidence S tes
                (classify_event_type (tok.lcut S)) },
      ?_, rfl, rfl, rfl, rfl, rfl, rfl⟩
    rw [extract_event_from_sentence, hguard]
    simp only [Bool.false_eq_true, if_false, hnt]
  | some nt =>
    refine ⟨{ sentence := S, sentence_index := i, time_expressions := tes,
              event_type := classify_event_type (tok.lcut S),
              entities := extract_entities tok (tok.lcut S),
              keywords := extract_event_keywords (tok.lcut S),
              confidence := calculate_event_confidence S tes
                (classify_event_type (tok.lcut S)),
              primary_time := some nt.primary_time,
              time_precision := some nt.time_precision,
              normalized_year := nt.normalized_year,
              year_range := nt.year_range },
      ?_, rfl, rfl, rfl, rfl, rfl, rfl⟩
    rw [extract_event_from_sentence, hguard]
    simp only [Bool.false_eq_true, if_false, hnt]

/-- Evaluation of `extract_events` on a text whose sentence split is a
single sentence containing every supplied time expression, under default
post-processing options. -/
theorem extract_events_single (tok : Tokenizer) (text S : List Char)
    (tes : List TimeExpression) (opts : EventOptions)
    (hne : text.isEmpty = false) (hsent : split_sentences text = [S])
    (hS : S.isEmpty = false)
    (htimes : tes.filter (fun te => is_time_in_sentence te S) = tes)
    (ht : tes.isEmpty = false) (hmc : opts.min_confidence = none)
    (hme : opts.max_events = none) :
    ∃ ev, extract_events tok text tes opts = [ev]
      ∧ ev.time_expressions = tes
      ∧ ev.primary_time = (normalize_event_time tes).map (fun nt => nt.primary_time)
      ∧ ev.normalized_year = (normalize_event_time tes).bind (fun nt => nt.normalized_year)
      ∧ ev.time_precision = (normalize_event_time tes).map (fun nt => nt.time_precision)
      ∧ ev.year_range = (normalize_event_time tes).bind (fun nt => nt.year_range)
      ∧ ev.confidence = calculate_event_confidence S tes
          (classify_event_type (tok.lcut S)) := by
  rcases extract_event_fields tok S tes 0 hS ht with ⟨ev, hev, h1, h2, h3, h4, h5, h6⟩
  refine ⟨ev, ?_, h1, h2, h3, h4, h5, h6⟩
  have htesne : tes ≠ [] := by
    intro hc
    rw [hc] at ht
    cases ht
  have hkeep : confidenceFilter [ev] opts = [ev] := by
    rw [confidenceFilter, hmc]
    have hconf : (3 : ℚ)/10 ≤ ev.confidence := by
      rw [h6]
      exact le_trans (by norm_num) (calc_confidence_lower htesne)
    simp [hconf]
  rw [extract_events, hne]
  simp only [Bool.false_eq_true, if_false]
  rw [hsent]
  show post_process_events (eventsOfSentences tok tes [(0, S)]) opts = [ev]
  have hbody : eventsOfSentences tok tes [(0, S)] = [ev] := by
    simp only [eventsOfSentences, htimes, ht, Bool.not_false, if_true, hev]
  rw [hbody, post_process_events]
  simp only [List.isEmpty_cons, Bool.false_eq_true, if_false]
  rw [hkeep, hme]
  rfl

/-! ### Claim C4 -/

theorem bestTimeScan_spec (l : List TimeExpression) (b : Option TimeExpression) (p : Nat) :
    (bestTimeScan b p l = (b, p) ∧ ∀ e ∈ l, effRank e ≤ p)
    ∨ (∃ l1 bt l2, l = l1 ++ bt :: l2 ∧ bestTimeScan b p l = (some bt, effRank bt)
        ∧ p < effRank bt
        ∧ (∀ x ∈ l1, effRank x < effRank bt) ∧ (∀ x ∈ l2, effRank x ≤ effRank bt)) := by
  induction l generalizing b p with
  | nil => left; exact ⟨rfl, by intro e he; cases he⟩
  | cons e es ih =>
    by_cases hgt : effRank e > p
    · have hstep : bestTimeScan b p (e :: es) = bestTimeScan (some e) (effRank e) es := by
        rw [bestTimeScan, if_pos hgt]
      rcases ih (some e) (effRank e) with ⟨heq, hall⟩ | ⟨l1, bt, l2, hdec, heq, hlt, hl1, hl2⟩
      · right
        refine ⟨[], e, es, rfl, by rw [hstep, heq], hgt, ?_, hall⟩
        intro x hx; cases hx
      · right
        refine ⟨e :: l1, bt, l2, by rw [hdec, List.cons_append], by rw [hstep, heq],
          lt_trans hgt hlt, ?_, hl2⟩
        intro x hx
        rcases List.mem_cons.mp hx with rfl | hx
        · exact hlt
        · exact hl1 x hx
    · have hstep : bestTimeScan b p (e :: es) = bestTimeScan b p es := by
        rw [bestTimeScan, if_neg hgt]
      have hle : effRank e ≤ p := Nat.le_of_not_lt hgt
      rcases ih b p with ⟨heq, hall⟩ | ⟨l1, bt, l2, hdec, heq, hlt, hl1, hl2⟩
      · left
        refine ⟨by rw [hstep, heq], ?_⟩
        intro x hx
        rcases List.mem_cons.mp hx with rfl | hx
        · exact hle
        · exact hall x hx
      · right
        refine ⟨e :: l1, bt, l2, by rw [hdec, List.cons_append], by rw [hstep, heq],
          hlt, ?_, hl2⟩
        intro x hx
        rcases List.mem_cons.mp hx with rfl | hx
        · exact lt_of_le_of_lt hle hlt
        · exact hl1 x hx

/-- The year expression of the C4 scenario text. -/
def scYearExpr : TimeExpression :=
  { text := ['1', '9', '4', '9', '年'], type := "year", start := 0, endPos := 5,
    groups := [['1', '9', '4', '9']], priority := 1,
    year := some 1949, normalized_year := some 1949, precision := some "year" }

/-- The month/day expression of the C4 scenario text. -/
def scMonthDayExpr : TimeExpression :=
  { text := ['1', '0', '月', '1', '日'], type := "month_day", start := 5, endPos := 10,
    groups := [['1', '0'], ['1']], priority := 1,
    month := some 10, day := some 1, precision := some "day" }

/-- C4 (amended): `_normalize_event_time` selects the first expression (in
list order, which is start-offset order in the pipeline) whose rank under
`precision_map` is strictly positive and maximal. Because the parser tags
month/day expressions with precision `day` — a key absent from
`precision_map`, whose `month_day` entry is therefore unreachable — a
month/day expression ranks 0, and when every expression ranks 0 (month_day,
season, emperor_era, relative_period, unparsed) no representative time is
chosen at all. The representative's `year` (or `start_year` for ranges,
which also populate `year_range`) becomes `normalized_year`; in particular
the 1949-10-01 scenario yields an event with `normalized_year = 1949`. -/
theorem C4_normalization (texprs : List TimeExpression) :
    (normalize_event_time texprs = none → ∀ e ∈ texprs, effRank e = 0)
    ∧ (∀ nt, normalize_event_time texprs = some nt →
        ∃ l1 l2, texprs = l1 ++ nt.primary_time :: l2
          ∧ 0 < effRank nt.primary_time
          ∧ (∀ e ∈ texprs, effRank e ≤ effRank nt.primary_time)
          ∧ (∀ e ∈ l1, effRank e < effRank nt.primary_time)
          ∧ nt.time_precision = nt.primary_time.precision.getD "unknown"
          ∧ nt.normalized_year = (match nt.primary_time.year with
              | some y => some y
              | none => nt.primary_time.start_year)
          ∧ nt.year_range = (match nt.primary_time.year, nt.primary_time.start_year,
                nt.primary_time.end_year with
              | none, some s, some en => some (s, en)
              | _, _, _ => none))
    ∧ (∀ tok, (analyze tok ("1949年10月1日，中华人民共和国成立。".data) {}).map
        (fun r => r.events.map (fun e => (e.normalized_year, e.time_precision))) =
        some [(some 1949, some "year")]) := by
  refine ⟨?_, ?_, ?_⟩
  · intro hnone e he
    rcases bestTimeScan_spec texprs none 0 with ⟨_, hall⟩ |
      ⟨l1, bt, l2, hdec, heq, _, _, _⟩
    · exact Nat.le_zero.mp (hall e he)
    · exfalso
      have hne : texprs.isEmpty = false := by rw [hdec]; cases l1 <;> rfl
      have hval : normalize_event_time texprs =
          some { primary_time := bt, time_precision := bt.precision.getD "unknown",
                 normalized_year := (match bt.year with
                   | some y => some y
                   | none => bt.start_year),
                 year_range := (match bt.year, bt.start_year, bt.end_year with
                   | none, some s, some en => some (s, en)
                   | _, _, _ => none) } := by
        rw [normalize_event_time, hne, heq]
        rfl
      rw [hval] at hnone
      cases hnone
  · intro nt hsome
    rcases bestTimeScan_spec texprs none 0 with ⟨heq, _⟩ |
      ⟨l1, bt, l2, hdec, heq, hpos, hl1, hl2⟩
    · exfalso
      have hval : normalize_event_time texprs = none := by
        cases hemp : texprs.isEmpty with
        | true => rw [normalize_event_time, hemp]; rfl
        | false => rw [normalize_event_time, hemp, heq]; rfl
      rw [hval] at hsome
      cases hsome
    · have hne : texprs.isEmpty = false := by rw [hdec]; cases l1 <;> rfl
      have hval : normalize_event_time texprs =
          some { primary_time := bt, time_precision := bt.precision.getD "unknown",
                 normalized_year := (match bt.year with
                   | some y => some y
                   | none => bt.start_year),
                 year_range := (match bt.year, bt.start_year, bt.end_year with
                   | none, some s, some en => some (s, en)
                   | _, _, _ => none) } := by
        rw [normalize_event_time, hne, heq]
        rfl
      rw [hval] at hsome
      have hnt : nt =
          { primary_time := bt, time_precision := bt.precision.getD "unknown",
            normalized_year := (match bt.year with
              | some y => some y
              | none => bt.start_year),
            year_range := (match bt.year, bt.start_year, bt.end_year with
              | none, some s, some en => some (s, en)
              | _, _, _ => none) } := (Option.some.inj hsome).symm
      subst hnt
      refine ⟨l1, l2, by rw [hdec], hpos, ?_, hl1, rfl, rfl, rfl⟩
      intro e he
      rw [hdec] at he
      rcases List.mem_append.mp he with he | he
      · exact le_of_lt (hl1 e he)
      · rcases List.mem_cons.mp he with rfl | he
        · exact le_refl _
        · exact hl2 e he
  · intro tok
    have h0 := analyze_map_events tok ("1949年10月1日，中华人民共和国成立。".data) {} rfl
      (fun evs => evs.map (fun e => (e.normalized_year, e.time_precision)))
    refine h0.trans (congrArg some ?_)
    rw [show extract_time_expressions ("1949年10月1日，中华人民共和国成立。".data) =
      [scYearExpr, scMonthDayExpr] from by decide]
    rcases extract_events_single tok ("1949年10月1日，中华人民共和国成立。".data)
        ['1', '9', '4', '9', '年', '1', '0', '月', '1', '日', '，', '中', '华', '人', '民',
         '共', '和', '国', '成', '立']
        [scYearExpr, scMonthDayExpr] {} rfl (by decide) rfl (by decide) rfl rfl rfl with
      ⟨ev, hev, _, _, hny, htp, _, _⟩
    show (extract_events tok _ [scYearExpr, scMonthDayExpr] {}).map
      (fun e => (e.normalized_year, e.time_precision)) = _
    rw [hev]
    simp only [List.map_cons, List.map_nil, hny, htp]
    rw [show normalize_event_time [scYearExpr, scMonthDayExpr] =
      some { primary_time := scYearExpr, time_precision := "year",
             normalized_year := some 1949, year_range := none } from by decide]
    rfl

/-- C4 counterexample: a sentence whose only time expression is a month/day
match. Under the claim's ranking `month_day = 3 > relative_period = 0` that
expression must be chosen as the event's representative time, yet the code
produces an event with no `primary_time`, no `time_precision` and no
`normalized_year`, because the expression's stored precision `day` is not a
key of `precision_map` and rank 0 never replaces the initial best. -/
theorem C4_counterexample :
    (analyze charTok ("10月1日，某事。".data) {}).map
        (fun r => r.events.map (fun e => (e.primary_time, e.time_precision, e.normalized_year))) =
      some [(none, none, none)] := by
  have h0 := analyze_map_events charTok ("10月1日，某事。".data) {} rfl
    (fun evs => evs.map (fun e => (e.primary_time, e.time_precision, e.normalized_year)))
  refine h0.trans (congrArg some ?_)
  rw [show extract_time_expressions ("10月1日，某事。".data) =
    [{ text := ['1', '0', '月', '1', '日'], type := "month_day", start := 0, endPos := 5,
       groups := [['1', '0'], ['1']], priority := 1,
       month := some 10, day := some 1, precision := some "day" }] from by decide]
  rcases extract_events_single charTok ("10月1日，某事。".data)
      ['1', '0', '月', '1', '日', '，', '某', '事']
      [{ text := ['1', '0', '月', '1', '日'], type := "month_day", start := 0, endPos := 5,
         groups := [['1', '0'], ['1']], priority := 1,
         month := some 10, day := some 1, precision := some "day" }] {} rfl (by decide) rfl
      (by decide) rfl rfl rfl with ⟨ev, hev, _, hpt, hny, htp, _, _⟩
  show (extract_events charTok _ _ {}).map
    (fun e => (e.primary_time, e.time_precision, e.normalized_year)) = _
  rw [hev]
  simp only [List.map_cons, List.map_nil, hpt, hny, htp]
  rw [show normalize_event_time
    [{ text := ['1', '0', '月', '1', '日'], type := "month_day", start := 0, endPos := 5,
       groups := [['1', '0'], ['1']], priority := 1,
       month := some 10, day := some 1, precision := some "day" }] = none from by decide]
  rfl

/-- The normalized time of the C4 scenario expressions, used to witness C4. -/
def c4nt : NormalizedTime :=
  { primary_time := scYearExpr, time_precision := "year",
    normalized_year := some 1949, year_range := none }

theorem C4_witness :
    ∃ l1 l2, [scYearExpr, scMonthDayExpr] = l1 ++ c4nt.primary_time :: l2
      ∧ 0 < effRank c4nt.primary_time
      ∧ (∀ e ∈ [scYearExpr, scMonthDayExpr], effRank e ≤ effRank c4nt.primary_time)
      ∧ (∀ e ∈ l1, effRank e < effRank c4nt.primary_time)
      ∧ c4nt.time_precision = c4nt.primary_time.precision.getD "unknown"
      ∧ c4nt.normalized_year = (match c4nt.primary_time.year with
          | some y => some y
          | none => c4nt.primary_time.start_year)
      ∧ c4nt.year_range = (match c4nt.primary_time.year, c4nt.primary_time.start_year,
            c4nt.primary_time.end_year with
          | none, some s, some en => some (s, en)
          | _, _, _ => none) :=
  (C4_normalization [scYearExpr, scMonthDayExpr]).2.1 c4nt (by decide)

/-! ### Claim C1: empty and whitespace-only input -/

theorem isPySpace_not_digit {c : Char} (h : isPySpace c = true) : c.isDigit = false := by
  simp only [isPySpace, Bool.or_eq_true, beq_iff_eq] at h
  rcases h with (((((((rfl | rfl) | rfl) | rfl) | rfl) | rfl) | rfl) | rfl) <;> rfl

theorem isPrefixOf_false_of_space {c0 : Char} {t s : List Char}
    (hc0 : isPySpace c0 = false) (hs : ∀ c ∈ s, isPySpace c = true) :
    (c0 :: t).isPrefixOf s = false := by
  cases s with
  | nil => rfl
  | cons d s' =>
    have hd : isPySpace d = true := hs d (List.mem_cons_self d s')
    have hne : (c0 == d) = false := by
      cases hbeq : (c0 == d) with
      | false => rfl
      | true =>
        have heq : c0 = d := beq_iff_eq.mp hbeq
        rw [heq, hd] at hc0
        cases hc0
    simp [List.isPrefixOf, hne]

theorem litAlts_none_of_space {alts : List (List Char)} {s : List Char}
    (halts : ∀ a ∈ alts, ∃ c0 t, a = c0 :: t ∧ isPySpace c0 = false)
    (hs : ∀ c ∈ s, isPySpace c = true) : litAlts alts s = none := by
  rw [litAlts, List.find?_eq_none]
  intro a ha
  rcases halts a ha with ⟨c0, t, rfl, hc0⟩
  rw [isPrefixOf_false_of_space hc0 hs]
  simp

theorem digitsCond_false_of_space (k : Nat) (lit : List Char) {s : List Char}
    (hs : ∀ c ∈ s, isPySpace c = true) :
    ((s.take (k + 1)).length == k + 1 && (s.take (k + 1)).all (fun c => c.isDigit)
      && lit.isPrefixOf (s.drop (k + 1))) = false := by
  cases s with
  | nil => rfl
  | cons d s' =>
    have hd : d.isDigit = false := isPySpace_not_digit (hs d (List.mem_cons_self d s'))
    simp [List.all_cons, hd]

theorem digitsThen_none_of_space (k : Nat) (lit : List Char) {s : List Char}
    (hs : ∀ c ∈ s, isPySpace c = true) : digitsThen k lit s = none := by
  induction k with
  | zero => rfl
  | succ k ih =>
    rw [digitsThen, digitsCond_false_of_space k lit hs]
    simp only [Bool.false_eq_true, if_false]
    exact ih

theorem tryMonthDay_none_of_space (k : Nat) {s : List Char}
    (hs : ∀ c ∈ s, isPySpace c = true) : tryMonthDay k s = none := by
  induction k with
  | zero => rfl
  | succ k ih =>
    rw [tryMonthDay, digitsCond_false_of_space k ['月'] hs]
    simp only [Bool.false_eq_true, if_false]
    exact ih

theorem matcher_none_of_space (p : TimePattern) (hp : p ∈ time_patterns) (s : List Char)
    (hs : ∀ c ∈ s, isPySpace c = true) : p.matchAt s = none := by
  fin_cases hp
  · show yearMatchAt s = none
    rw [yearMatchAt, digitsThen_none_of_space 4 ['年'] hs]
  · show dynastyMatchAt s = none
    rw [dynastyMatchAt, litAlts_none_of_space (by intro a ha; fin_cases ha <;> exact ⟨_, _, rfl, rfl⟩) hs]
  · show emperorEraMatchAt s = none
    rw [emperorEraMatchAt, litAlts_none_of_space (by intro a ha; fin_cases ha <;> exact ⟨_, _, rfl, rfl⟩) hs]
  · show centuryMatchAt s = none
    rw [centuryMatchAt, isPrefixOf_false_of_space (by decide) hs]
    simp only [Bool.false_eq_true, if_false]
    rw [digitsThen_none_of_space 2 ['世', '纪'] hs]
  · show relativePeriodMatchAt s = none
    rw [relativePeriodMatchAt, litAlts_none_of_space (by intro a ha; fin_cases ha <;> exact ⟨_, _, rfl, rfl⟩) hs]
  · show monthDayMatchAt s = none
    rw [monthDayMatchAt]
    exact tryMonthDay_none_of_space 2 hs
  · show seasonMatchAt s = none
    rw [seasonMatchAt, litAlts_none_of_space (by intro a ha; fin_cases ha <;> exact ⟨_, _, rfl, rfl⟩) hs]
  · show historicalPeriodMatchAt s = none
    rw [historicalPeriodMatchAt, litAlts_none_of_space (by intro a ha; fin_cases ha <;> exact ⟨_, _, rfl, rfl⟩) hs]

theorem finditerAux_nil_of_none (m : List Char → Option (Nat × List (List Char)))
    (s : List Char) (hm : ∀ pos, m (s.drop pos) = none) :
    ∀ fuel pos, finditerAux m s fuel pos = [] := by
  intro fuel
  induction fuel with
  | zero => intro pos; rfl
  | succ fuel ih =>
    intro pos
    rw [finditerAux]
    by_cases hpos : pos < s.length
    · rw [if_pos hpos, hm pos]
      exact ih (pos + 1)
    · rw [if_neg hpos]

theorem flatMap_nil_of_forall {α β : Type} {l : List α} {f : α → List β}
    (h : ∀ a ∈ l, f a = []) : l.flatMap f = [] := by
  induction l with
  | nil => rfl
  | cons a t ih =>
    rw [List.flatMap_cons, h a (List.mem_cons_self a t),
      ih (fun b hb => h b (List.mem_cons_of_mem a hb))]
    rfl

theorem rawExpressions_space (text : List Char) (hs : ∀ c ∈ text, isPySpace c = true) :
    rawExpressions text = [] := by
  rw [rawExpressions]
  apply flatMap_nil_of_forall
  intro p hp
  have hp' : p ∈ time_patterns := mem_insertionSortB.mp hp
  have hfind : finditer p.matchAt text = [] :=
    finditerAux_nil_of_none p.matchAt text
      (fun pos => matcher_none_of_space p hp' (text.drop pos)
        (fun c hc => hs c (List.drop_subset pos text hc)))
      (text.length + 1) 0
  rw [hfind]
  rfl

theorem extract_time_expressions_space (text : List Char)
    (hs : ∀ c ∈ text, isPySpace c = true) : extract_time_expressions text = [] := by
  by_cases hne : text.isEmpty
  · rw [extract_time_expressions, if_pos hne]
  · rw [extract_time_expressions, if_neg hne, rawExpressions_space text hs]
    rfl

theorem splitSeps_chars (text : List Char) :
    ∀ piece ∈ splitSeps text, ∀ c ∈ piece, c ∈ text := by
  induction text with
  | nil =>
    intro piece hp c hc
    rcases List.mem_singleton.mp hp with rfl
    cases hc
  | cons d cs ih =>
    intro piece hp c hc
    by_cases hd : isSentenceSep d = true
    · rw [splitSeps, if_pos hd] at hp
      rcases List.mem_cons.mp hp with rfl | hp
      · cases hc
      · exact List.mem_cons_of_mem d (ih piece hp c hc)
    · rw [splitSeps, if_neg hd] at hp
      cases hr : splitSeps cs with
      | nil =>
        rw [hr] at hp
        rcases List.mem_singleton.mp hp with rfl
        rcases List.mem_singleton.mp hc with rfl
        exact List.mem_cons_self c cs
      | cons h t =>
        rw [hr] at hp
        rcases List.mem_cons.mp hp with rfl | hp
        · rcases List.mem_cons.mp hc with rfl | hc
          · exact List.mem_cons_self c cs
          · exact List.mem_cons_of_mem d
              (ih h (by rw [hr]; exact List.mem_cons_self h t) c hc)
        · exact List.mem_cons_of_mem d
            (ih piece (by rw [hr]; exact List.mem_cons_of_mem h hp) c hc)

theorem dropWhile_nil_of_all {p : Char → Bool} {s : List Char}
    (h : ∀ c ∈ s, p c = true) : s.dropWhile p = [] := by
  induction s with
  | nil => rfl
  | cons d t ih =>
    rw [List.dropWhile_cons, h d (List.mem_cons_self d t)]
    simp only [if_true]
    exact ih (fun c hc => h c (List.mem_cons_of_mem d hc))

theorem pyStrip_space {s : List Char} (h : ∀ c ∈ s, isPySpace c = true) :
    pyStrip s = [] := by
  rw [pyStrip, dropWhile_nil_of_all h]
  rfl

theorem split_sentences_space (text : List Char) (hs : ∀ c ∈ text, isPySpace c = true) :
    split_sentences text = [] := by
  rw [split_sentences]
  rw [List.filter_eq_nil_iff]
  intro piece hpiece
  rcases List.mem_map.mp hpiece with ⟨q, hq, rfl⟩
  have : pyStrip q = [] :=
    pyStrip_space (fun c hc => hs c (splitSeps_chars text q hq c hc))
  rw [this]
  simp

theorem extract_events_of_no_sentences (tok : Tokenizer) (text : List Char)
    (tes : List TimeExpression) (options : EventOptions)
    (hsent : split_sentences text = []) : extract_events tok text tes options = [] := by
  by_cases hne : text.isEmpty
  · rw [extract_events, if_pos hne]
  · rw [extract_events, if_neg hne, hsent]
    rfl

/-- The full result record `analyze` returns on nonempty text. -/
theorem analyze_some (tok : Tokenizer) (text : List Char) (opts : AnalyzeOptions)
    (hne : text.isEmpty = false) :
    analyze tok text opts = some
      { time_expressions := extract_time_expressions text,
        events := extract_events tok text (extract_time_expressions text)
          opts.event_extraction,
        timeline := build_timeline
          (extract_events tok text (extract_time_expressions text) opts.event_extraction)
          opts.timeline_building,
        summary :=
          { time_expressions_count := (extract_time_expressions text).length,
            events_count := (extract_events tok text (extract_time_expressions text)
              opts.event_extraction).length,
            timeline_periods := ((build_timeline
              (extract_events tok text (extract_time_expressions text)
                opts.event_extraction) opts.timeline_building).map
              (fun t => t.total_periods)).getD 0 } } := by
  rw [analyze, hne]
  rfl

/-- C1 counterexample: on the empty string, `analyze` takes the early
`if not text: return {}` path and yields the empty dict (`none` in this
model), not the claimed well-formed empty envelope with zeroed summary. -/
theorem C1_counterexample : analyze charTok ("".data) {} = none := rfl

/-- C1 (amended): `analyze` returns the bare empty dict for empty input;
for nonempty whitespace-only input it returns the envelope with empty
expression and event lists, an empty dict (`none`) in the `timeline` slot,
and an all-zero summary. Neither case is an error. -/
theorem C1_empty_whitespace (tok : Tokenizer) (opts : AnalyzeOptions) (text : List Char) :
    (analyze tok [] opts = none)
    ∧ (text ≠ [] → (∀ c ∈ text, isPySpace c = true) →
        analyze tok text opts =
          some { time_expressions := [], events := [], timeline := none,
                 summary := { time_expressions_count := 0, events_count := 0,
                              timeline_periods := 0 } }) := by
  constructor
  · rfl
  · intro hne hs
    have hne' : text.isEmpty = false := by
      cases text with
      | nil => exact absurd rfl hne
      | cons a t => rfl
    have hte := extract_time_expressions_space text hs
    have hsent := split_sentences_space text hs
    rw [analyze_some tok text opts hne', hte]
    rw [extract_events_of_no_sentences tok text [] opts.event_extraction hsent]
    rfl

theorem C1_witness :
    analyze charTok [' '] {} =
      some { time_expressions := [], events := [], timeline := none,
             summary := { time_expressions_count := 0, events_count := 0,
                          timeline_periods := 0 } } :=
  (C1_empty_whitespace charTok {} [' ']).2 (by decide) (by decide)

/-! ### Claim C3: invalid `group_by` -/

/-- The historical-period expression extracted from `民国`. -/
def mgExpr : TimeExpression :=
  { text := ['民', '国'], type := "historical_period", start := 0, endPos := 2,
    groups := [['民', '国']], priority := 2,
    start_year := some 1912, end_year := some 1949,
    period := some "民国", precision := some "period" }

/-- Any function of the timeline dict `build_timeline` returns on a
nonempty event list reads the sorted node list built from the groups. -/
theorem build_timeline_map {α : Type} (events : List Event) (opts : TimelineOptions)
    (hne : events.isEmpty = false) (f : Timeline → α) :
    (build_timeline events opts).map f = some (f
      { timeline := insertionSortB leNodeKey ((timelineGroups events opts).filterMap
          (fun g => create_timeline_node g.1 g.2 opts)),
        statistics := calculate_timeline_stats (insertionSortB leNodeKey
          ((timelineGroups events opts).filterMap
            (fun g => create_timeline_node g.1 g.2 opts))) events,
        total_events := events.length,
        total_periods := (insertionSortB leNodeKey ((timelineGroups events opts).filterMap
          (fun g => create_timeline_node g.1 g.2 opts))).length }) := by
  rw [build_timeline, hne]
  rfl

/-- General projection form of `analyze_some`. -/
theorem analyze_map {α : Type} (tok : Tokenizer) (text : List Char)
    (opts : AnalyzeOptions) (hne : text.isEmpty = false) (f : AnalyzeResult → α) :
    (analyze tok text opts).map f = some (f
      { time_expressions := extract_time_expressions text,
        events := extract_events tok text (extract_time_expressions text)
          opts.event_extraction,
        timeline := build_timeline
          (extract_events tok text (extract_time_expressions text) opts.event_extraction)
          opts.timeline_building,
        summary :=
          { time_expressions_count := (extract_time_expressions text).length,
            events_count := (extract_events tok text (extract_time_expressions text)
              opts.event_extraction).length,
            timeline_periods := ((build_timeline
              (extract_events tok text (extract_time_expressions text)
                opts.event_extraction) opts.timeline_building).map
              (fun t => t.total_periods)).getD 0 } }) := by
  rw [analyze, hne]
  rfl

/-- C3 (amended): no `group_by` value is reported as an error — `analyze`
returns the empty dict exactly for empty text and a normal envelope
otherwise, for every options value; and an unrecognized `group_by` is
silently substituted: the grouping key falls through to the dynasty-typed
fallback (dropping the event from the timeline when none exists). -/
theorem C3_invalid_group_by_silent (tok : Tokenizer) (text : List Char)
    (opts : AnalyzeOptions) :
    (analyze tok text opts = none ↔ text = [])
    ∧ (∀ (e : Event) (gopts : TimelineOptions),
        gopts.group_by.getD "century" ∉ (["century", "dynasty", "year"] : List String) →
        get_timeline_group_key e gopts = dynastyFallback e) := by
  constructor
  · constructor
    · intro hnone
      cases htext : text.isEmpty with
      | true => exact List.isEmpty_iff.mp htext
      | false =>
        rw [analyze_some tok text opts htext] at hnone
        cases hnone
    · intro h
      rw [h]
      rfl
  · intro e gopts hg
    simp only [List.mem_cons, not_or] at hg
    obtain ⟨h1, h2, h3, -⟩ := hg
    have hb1 : (gopts.group_by.getD "century" == "century") = false :=
      beq_eq_false_iff_ne.mpr h1
    have hb2 : (gopts.group_by.getD "century" == "dynasty") = false :=
      beq_eq_false_iff_ne.mpr h2
    have hb3 : (gopts.group_by.getD "century" == "year") = false :=
      beq_eq_false_iff_ne.mpr h3
    rw [get_timeline_group_key]
    cases hny : e.normalized_year with
    | none => rfl
    | some y => simp only [hb1, hb2, hb3, Bool.false_eq_true, if_false]

/-- C3 counterexample: with the unrecognized `group_by = "bogus"`,
`analyze` does not abort: it returns a normal envelope in which the one
extracted event was silently dropped from the timeline (one event, zero
timeline periods) — not a reported configuration error. -/
theorem C3_counterexample :
    (analyze charTok ("民国，改革。".data)
        { timeline_building := { group_by := some "bogus" } }).map
      (fun r => (r.events.length,
        r.timeline.map (fun t => (t.total_periods, t.timeline.length)))) =
      some (1, some (0, 0)) := by
  have h0 := analyze_map charTok ("民国，改革。".data)
    { timeline_building := { group_by := some "bogus" } } rfl
    (fun r => (r.events.length,
      r.timeline.map (fun t => (t.total_periods, t.timeline.length))))
  refine h0.trans (congrArg some ?_)
  rw [show extract_time_expressions ("民国，改革。".data) = [mgExpr] from by decide]
  rcases extract_events_single charTok ("民国，改革。".data)
      ['民', '国', '，', '改', '革'] [mgExpr] {} rfl (by decide) rfl (by decide) rfl rfl rfl
    with ⟨ev, hev, hte1, _, hny, _, _, _⟩
  show ((extract_events charTok ("民国，改革。".data) [mgExpr] ({} : EventOptions)).length,
    (build_timeline (extract_events charTok ("民国，改革。".data) [mgExpr] ({} : EventOptions))
      { group_by := some "bogus", max_events_per_node := none }).map
      (fun t => (t.total_periods, t.timeline.length))) = (1, some (0, 0))
  rw [hev]
  have hny' : ev.normalized_year = some 1912 := by
    rw [hny]
    rfl
  have hkey : get_timeline_group_key ev
      { group_by := some "bogus", max_events_per_node := none } = none := by
    rw [get_timeline_group_key]
    rw [hny']
    simp only [Option.getD_some]
    rw [dynastyFallback, hte1]
    rfl
  have hgr : timelineGroups [ev]
      { group_by := some "bogus", max_events_per_node := none } = [] := by
    rw [timelineGroups]
    simp only [List.foldl_cons, List.foldl_nil, hkey]
  have hbt := build_timeline_map [ev]
    { group_by := some "bogus", max_events_per_node := none } rfl
    (fun t => (t.total_periods, t.timeline.length))
  rw [hgr] at hbt
  rw [hbt]
  rfl

/-- A minimal event used to witness C3's fallback clause. -/
def w3event : Event :=
  { sentence := [], sentence_index := 0, time_expressions := [], event_type := "其他",
    entities := [], keywords := [], confidence := 0, normalized_year := some 100 }

theorem C3_witness :
    (analyze charTok [] {} = none)
    ∧ get_timeline_group_key w3event { group_by := some "bogus" } =
        dynastyFallback w3event :=
  ⟨(C3_invalid_group_by_silent charTok [] {}).1.mpr rfl,
   (C3_invalid_group_by_silent charTok [] {}).2 w3event { group_by := some "bogus" }
     (by decide)⟩

/-! ### Claim C7: option plumbing of the post-filter -/

theorem post_process_bounds (events : List Event) (options : EventOptions) :
    (∀ e ∈ post_process_events events options,
        options.min_confidence.getD (3/10) ≤ e.confidence)
    ∧ (post_process_events events options).length ≤ options.max_events.getD 50 := by
  rw [post_process_events]
  by_cases hemp : events.isEmpty = true
  · rw [if_pos hemp]
    exact ⟨fun e he => absurd he (List.not_mem_nil e), by simp⟩
  · rw [if_neg hemp]
    constructor
    · intro e he
      have he' : e ∈ insertionSortB leEventKey (confidenceFilter events options) :=
        List.mem_of_mem_take he
      have he'' : e ∈ confidenceFilter events options := mem_insertionSortB.mp he'
      rw [confidenceFilter] at he''
      have := (List.mem_filter.mp he'').2
      simpa using this
    · exact List.length_take_le _ _

theorem extract_events_bounds (tok : Tokenizer) (text : List Char)
    (tes : List TimeExpression) (options : EventOptions) :
    (∀ e ∈ extract_events tok text tes options,
        options.min_confidence.getD (3/10) ≤ e.confidence)
    ∧ (extract_events tok text tes options).length ≤ options.max_events.getD 50 := by
  rw [extract_events]
  by_cases hne : text.isEmpty = true
  · rw [if_pos hne]
    exact ⟨fun e he => absurd he (List.not_mem_nil e), by simp⟩
  · rw [if_neg hne]
    exact post_process_bounds _ _

/-- C7 (amended): the post-filter of event building is driven by the
nested `options.event_extraction` bag, not by top-level keys: every event
in the envelope has confidence at least
`options.event_extraction.min_confidence` (default 0.3) and the list holds
at most `options.event_extraction.max_events` (default 50) entries.
Top-level `min_confidence`/`max_events` keys are never read. -/
theorem C7_filter_uses_nested_options (tok : Tokenizer) (text : List Char)
    (opts : AnalyzeOptions) (r : AnalyzeResult) (h : analyze tok text opts = some r) :
    (∀ e ∈ r.events, opts.event_extraction.min_confidence.getD (3/10) ≤ e.confidence)
    ∧ r.events.length ≤ opts.event_extraction.max_events.getD 50 := by
  have hne : text.isEmpty = false := by
    cases htext : text.isEmpty with
    | false => rfl
    | true =>
      exfalso
      have htxt : text = [] := List.isEmpty_iff.mp htext
      rw [htxt] at h
      cases h
  rw [analyze_some tok text opts hne] at h
  have hr := (Option.some.inj h).symm
  subst hr
  exact extract_events_bounds tok text (extract_time_expressions text)
    opts.event_extraction

/-- The year expression extracted from `1949年` in the C7 texts. -/
def c7expr : TimeExpression :=
  { text := ['1', '9', '4', '9', '年'], type := "year", start := 0, endPos := 5,
    groups := [['1', '9', '4', '9']], priority := 1,
    year := some 1949, normalized_year := some 1949, precision := some "year" }

/-- C7 counterexample: passing the claim's flat top-level options
`{min_confidence: 0.9}` to `analyze` does not filter anything — the
returned event has confidence 0.5 < 0.9, because the post-filter reads
only `options['event_extraction']`, which is absent and so defaults. -/
theorem C7_counterexample :
    (analyze charTok ("1949年，某事。".data) { min_confidence := some (9/10) }).map
        (fun r => r.events.map (fun e => e.confidence)) = some [1/2]
    ∧ (1 : ℚ)/2 < 9/10 := by
  constructor
  · have h0 := analyze_map charTok ("1949年，某事。".data)
      { min_confidence := some (9/10) } rfl (fun r => r.events.map (fun e => e.confidence))
    refine h0.trans (congrArg some ?_)
    rw [show extract_time_expressions ("1949年，某事。".data) = [c7expr] from by decide]
    rcases extract_events_single charTok ("1949年，某事。".data)
        ['1', '9', '4', '9', '年', '，', '某', '事'] [c7expr] {} rfl (by decide) rfl
        (by decide) rfl rfl rfl with ⟨ev, hev, _, _, _, _, _, hconf⟩
    show (extract_events charTok ("1949年，某事。".data) [c7expr]
      ({} : EventOptions)).map (fun e => e.confidence) = [1/2]
    rw [hev]
    simp only [List.map_cons, List.map_nil]
    rw [hconf]
    rw [show classify_event_type (charTok.lcut
      ['1', '9', '4', '9', '年', '，', '某', '事']) = "其他" from by rfl]
    rw [calculate_event_confidence]
    norm_num
  · norm_num

theorem C7_witness :
    ((3 : ℚ)/10 ≤ (1 : ℚ)/2) ∧
      ∃ r, analyze charTok ("1949年，某事。".data) {} = some r ∧ r.events.length ≤ 50 := by
  obtain ⟨r, hr⟩ : ∃ r, analyze charTok ("1949年，某事。".data) {} = some r :=
    ⟨_, analyze_some charTok ("1949年，某事。".data) {} rfl⟩
  exact ⟨by norm_num, r, hr,
    (C7_filter_uses_nested_options charTok ("1949年，某事。".data) {} r hr).2⟩

/-! ### Claim C8: node sort keys, time ranges and ordering -/

theorem foldl_min_le_init (ys : List Int) (x : Int) : ys.foldl min x ≤ x := by
  induction ys generalizing x with
  | nil => exact le_refl x
  | cons a t ih => exact le_trans (ih (min x a)) (min_le_left x a)

theorem foldl_min_le_mem {y : Int} {ys : List Int} (hy : y ∈ ys) (x : Int) :
    ys.foldl min x ≤ y := by
  induction ys generalizing x with
  | nil => cases hy
  | cons a t ih =>
    rcases List.mem_cons.mp hy with rfl | hy
    · exact le_trans (foldl_min_le_init t (min x y)) (min_le_right x y)
    · exact ih hy (min x a)

theorem foldl_min_mem (ys : List Int) (x : Int) : ys.foldl min x ∈ x :: ys := by
  induction ys generalizing x with
  | nil => exact List.mem_singleton.mpr rfl
  | cons a t ih =>
    have h := ih (min x a)
    rcases List.mem_cons.mp h with heq | hmem
    · show t.foldl min (min x a) ∈ x :: a :: t
      rw [heq]
      rcases min_choice x a with hc | hc
      · rw [hc]; exact List.mem_cons_self x (a :: t)
      · rw [hc]; exact List.mem_cons_of_mem x (List.mem_cons_self a t)
    · exact List.mem_cons_of_mem x (List.mem_cons_of_mem a hmem)

theorem foldl_max_ge_init (ys : List Int) (x : Int) : x ≤ ys.foldl max x := by
  induction ys generalizing x with
  | nil => exact le_refl x
  | cons a t ih => exact le_trans (le_max_left x a) (ih (max x a))

theorem foldl_max_ge_mem {y : Int} {ys : List Int} (hy : y ∈ ys) (x : Int) :
    y ≤ ys.foldl max x := by
  induction ys generalizing x with
  | nil => cases hy
  | cons a t ih =>
    rcases List.mem_cons.mp hy with rfl | hy
    · exact le_trans (le_max_right x y) (foldl_max_ge_init t (max x y))
    · exact ih hy (max x a)

theorem foldl_max_mem (ys : List Int) (x : Int) : ys.foldl max x ∈ x :: ys := by
  induction ys generalizing x with
  | nil => exact List.mem_singleton.mpr rfl
  | cons a t ih =>
    have h := ih (max x a)
    rcases List.mem_cons.mp h with heq | hmem
    · show t.foldl max (max x a) ∈ x :: a :: t
      rw [heq]
      rcases max_choice x a with hc | hc
      · rw [hc]; exact List.mem_cons_self x (a :: t)
      · rw [hc]; exact List.mem_cons_of_mem x (List.mem_cons_self a t)
    · exact List.mem_cons_of_mem x (List.mem_cons_of_mem a hmem)

theorem listMin?_spec {ys : List Int} {m : Int} (h : listMin? ys = some m) :
    m ∈ ys ∧ ∀ y ∈ ys, m ≤ y := by
  cases ys with
  | nil => cases h
  | cons x xs =>
    have hm : m = xs.foldl min x := (Option.some.inj h).symm
    subst hm
    refine ⟨foldl_min_mem xs x, ?_⟩
    intro y hy
    rcases List.mem_cons.mp hy with rfl | hy
    · exact foldl_min_le_init xs y
    · exact foldl_min_le_mem hy x

theorem listMax?_spec {ys : List Int} {m : Int} (h : listMax? ys = some m) :
    m ∈ ys ∧ ∀ y ∈ ys, y ≤ m := by
  cases ys with
  | nil => cases h
  | cons x xs =>
    have hm : m = xs.foldl max x := (Option.some.inj h).symm
    subst hm
    refine ⟨foldl_max_mem xs x, ?_⟩
    intro y hy
    rcases List.mem_cons.mp hy with rfl | hy
    · exact foldl_max_ge_init xs y
    · exact foldl_max_ge_mem hy x

/-- The fields of the node `_create_timeline_node` returns. -/
theorem create_timeline_node_fields (key : String) (events : List Event)
    (opts : TimelineOptions) (node : TimelineNode)
    (h : create_timeline_node key events opts = some node) :
    node.period = key
    ∧ node.sort_key = (listMin? (nodeYears events)).getD 0
    ∧ node.time_range = (listMin? (nodeYears events), listMax? (nodeYears events)) := by
  rw [create_timeline_node] at h
  cases hemp : events.isEmpty with
  | true =>
    rw [hemp] at h
    cases h
  | false =>
    rw [hemp] at h
    simp only [Bool.false_eq_true, if_false] at h
    have hnode := (Option.some.inj h).symm
    subst hnode
    exact ⟨rfl, rfl, rfl⟩

theorem leNodeKey_total (a b : TimelineNode) :
    leNodeKey a b = false → leNodeKey b a = true := by
  simp only [leNodeKey, decide_eq_true_eq, decide_eq_false_iff_not]
  omega

theorem leNodeKey_trans (a b c : TimelineNode) :
    leNodeKey a b = true → leNodeKey b c = true → leNodeKey a c = true := by
  simp only [leNodeKey, decide_eq_true_eq]
  omega

/-- C8 (amended): a node's `sort_key` is the minimum — and its `time_range`
the (min, max) — of the years collected by the source's `elif`: an event
contributes its `normalized_year` when present, and its `year_range`
endpoints only otherwise (in the pipeline `year_range` is set only together
with `normalized_year`, so range end-points are in fact ignored there); the
key is 0 when no year is collected, and the final timeline is sorted
ascending by `sort_key`. -/
theorem C8_sort_key_min_and_sorted :
    (∀ (key : String) (events : List Event) (opts : TimelineOptions) (node : TimelineNode),
      create_timeline_node key events opts = some node →
        node.period = key
      ∧ node.sort_key = (listMin? (nodeYears events)).getD 0
      ∧ node.time_range = (listMin? (nodeYears events), listMax? (nodeYears events))
      ∧ (∀ y ∈ nodeYears events, node.sort_key ≤ y)
      ∧ (nodeYears events ≠ [] → node.sort_key ∈ nodeYears events
          ∧ ∃ mx, node.time_range.2 = some mx ∧ mx ∈ nodeYears events
              ∧ ∀ y ∈ nodeYears events, y ≤ mx))
    ∧ (∀ (events : List Event) (opts : TimelineOptions) (tl : Timeline),
        build_timeline events opts = some tl →
        tl.timeline.Pairwise (fun a b => a.sort_key ≤ b.sort_key)) := by
  constructor
  · intro key events opts node h
    rcases create_timeline_node_fields key events opts node h with ⟨hper, hsk, htr⟩
    refine ⟨hper, hsk, htr, ?_, ?_⟩
    · intro y hy
      cases hys : nodeYears events with
      | nil => rw [hys] at hy; cases hy
      | cons a t =>
        have hmin : listMin? (nodeYears events) = some (t.foldl min a) := by
          rw [hys]; rfl
        rw [hsk, hmin]
        exact (listMin?_spec hmin).2 y hy
    · intro hne
      cases hys : nodeYears events with
      | nil => exact absurd hys hne
      | cons a t =>
        have hmin : listMin? (nodeYears events) = some (t.foldl min a) := by
          rw [hys]; rfl
        have hmax : listMax? (nodeYears events) = some (t.foldl max a) := by
          rw [hys]; rfl
        have hminmem := (listMin?_spec hmin).1
        have hmaxmem := (listMax?_spec hmax).1
        have hmaxall := (listMax?_spec hmax).2
        rw [hys] at hminmem hmaxmem hmaxall
        constructor
        · rw [hsk, hmin]
          simpa using hminmem
        · refine ⟨t.foldl max a, ?_, hmaxmem, hmaxall⟩
          rw [htr, hmax]
  · intro events opts tl h
    rw [build_timeline] at h
    cases hemp : events.isEmpty with
    | true =>
      rw [hemp] at h
      cases h
    | false =>
      rw [hemp] at h
      simp only [Bool.false_eq_true, if_false] at h
      have htl := (Option.some.inj h).symm
      subst htl
      have hpw := pairwise_insertionSortB leNodeKey_total leNodeKey_trans
        ((timelineGroups events opts).filterMap
          (fun g => create_timeline_node g.1 g.2 opts))
      exact hpw.imp (fun hab => by simpa [leNodeKey] using hab)

/-- C8 counterexample: the pipeline event from `民国` has
`normalized_year = 1912` and `year_range = (1912, 1949)`, but its node's
`time_range` ends at 1912, not at the claimed year-range endpoint 1949:
the `elif` skips `year_range` whenever `normalized_year` is present. -/
theorem C8_counterexample :
    (analyze charTok ("民国，改革。".data) {}).map
        (fun r => (r.timeline.map (fun t => t.timeline.map
            (fun n => (n.period, n.time_range, n.sort_key))),
          r.events.map (fun e => e.year_range))) =
      some (some [("20世纪", ((some 1912, some 1912) : Option Int × Option Int), (1912 : Int))],
        [some ((1912 : Int), (1949 : Int))]) := by
  have h0 := analyze_map charTok ("民国，改革。".data) {} rfl
    (fun r => (r.timeline.map (fun t => t.timeline.map
        (fun n => (n.period, n.time_range, n.sort_key))),
      r.events.map (fun e => e.year_range)))
  refine h0.trans (congrArg some ?_)
  rw [show extract_time_expressions ("民国，改革。".data) = [mgExpr] from by decide]
  rcases extract_events_single charTok ("民国，改革。".data)
      ['民', '国', '，', '改', '革'] [mgExpr] {} rfl (by decide) rfl (by decide) rfl rfl rfl
    with ⟨ev, hev, hte1, _, hny, _, hyr, _⟩
  show ((build_timeline (extract_events charTok ("民国，改革。".data) [mgExpr]
        ({} : EventOptions)) ({} : TimelineOptions)).map
      (fun t => t.timeline.map (fun n => (n.period, n.time_range, n.sort_key))),
    (extract_events charTok ("民国，改革。".data) [mgExpr]
      ({} : EventOptions)).map (fun e => e.year_range)) = _
  rw [hev]
  have hny' : ev.normalized_year = some 1912 := by rw [hny]; rfl
  have hyr' : ev.year_range = some (1912, 1949) := by rw [hyr]; rfl
  have hyears : nodeYears [ev] = [1912] := by
    rw [nodeYears, List.flatMap_cons, List.flatMap_nil, hny']
    rfl
  have hkey : get_timeline_group_key ev {} = some "20世纪" := by
    rw [get_timeline_group_key, hny']
    rfl
  have hgr : timelineGroups [ev] {} = [("20世纪", [ev])] := by
    rw [timelineGroups]
    simp only [List.foldl_cons, List.foldl_nil, hkey]
    rfl
  obtain ⟨n, hn⟩ : ∃ n, create_timeline_node "20世纪" [ev] {} = some n := ⟨_, rfl⟩
  rcases create_timeline_node_fields "20世纪" [ev] {} n hn with ⟨hper, hsk, htr⟩
  rw [hyears] at hsk htr
  have hbt := build_timeline_map [ev] {} rfl
    (fun t => t.timeline.map (fun n => (n.period, n.time_range, n.sort_key)))
  rw [hgr] at hbt
  rw [hbt]
  simp only [List.filterMap_cons, List.filterMap_nil, hn]
  show (some ((insertionSortB leNodeKey [n]).map
      (fun n => (n.period, n.time_range, n.sort_key))),
    [ev].map (fun e => e.year_range)) = _
  simp only [insertionSortB, orderedInsertB, List.map_cons, List.map_nil]
  rw [hper, hsk, htr, hyr']
  rfl

/-- A hand-built event with a normalized year and a wider year range, used
to witness C8 (the node ignores the range endpoints, per the `elif`). -/
def w8event : Event :=
  { sentence := [], sentence_index := 0, time_expressions := [], event_type := "其他",
    entities := [], keywords := [], confidence := 0,
    normalized_year := some 618, year_range := some (618, 907) }

theorem C8_witness :
    ∃ n, create_timeline_node "唐朝" [w8event] {} = some n
      ∧ n.period = "唐朝"
      ∧ n.sort_key = (listMin? (nodeYears [w8event])).getD 0
      ∧ (∀ y ∈ nodeYears [w8event], n.sort_key ≤ y)
      ∧ (nodeYears [w8event] ≠ [] → n.sort_key ∈ nodeYears [w8event]) := by
  obtain ⟨n, hn⟩ : ∃ n, create_timeline_node "唐朝" [w8event] {} = some n := ⟨_, rfl⟩
  have h := (C8_sort_key_min_and_sorted).1 "唐朝" [w8event] {} n hn
  exact ⟨n, hn, h.1, h.2.1, h.2.2.2.1, fun hne => (h.2.2.2.2 hne).1⟩

end MH



